import Mathlib

/-!
Verification of the ContextGuard scan-orchestration core.

This file gives a shallow embedding, in Lean 4, of the scan engine of the
ContextGuard repository: prompt-unit extraction (src/scanner/extractor.ts),
mitigation scoring (src/rules/mitigation.ts), rule dispatch with
deduplication and risk scoring (src/scoring/index.ts, src/rules/types.ts),
the incremental cache (src/scanner/cache.ts) and the per-file pipeline
(src/scanner/pipeline.ts).  TypeScript numbers that are always integral are
modelled as `Int`/`Nat`; the one place where fractional arithmetic occurs
(risk-point discounting) is modelled over `ℚ` with JavaScript's
`Math.round x = ⌊x + 1/2⌋` for non-negative `x`.  Regular-expression `test`
calls are modelled by a small executable derivative-based matcher; every
pattern of the source is transcribed into its AST.  All source patterns
carry the `/i` flag, which is modelled by lowercasing the subject once and
writing the transcribed patterns in lower case.
-/

namespace ContextGuard

/-! ## Kernel-computable string helpers

Plain structural recursions over `String.data`, standing for the JavaScript
string operations named in each doc comment (the library versions iterate
over byte positions and do not reduce inside the kernel).  JS
`toLowerCase`/`split`/`length` act on UTF-16 data; on the texts considered
here they agree with the character-level versions. -/

/-- JS `s.toLowerCase()` (ASCII case folding). -/
def strLower (s : String) : String := String.mk (s.data.map Char.toLower)

def splitOnCharAux (sep : Char) : List Char → List Char → List String
  | [], acc => [String.mk acc.reverse]
  | c :: cs, acc =>
    if c = sep then String.mk acc.reverse :: splitOnCharAux sep cs []
    else splitOnCharAux sep cs (c :: acc)

/-- JS `s.split(sep)` for a one-character separator. -/
def splitOnChar (sep : Char) (s : String) : List String :=
  splitOnCharAux sep s.data []

def listStartsWith : List Char → List Char → Bool
  | _, [] => true
  | [], _ :: _ => false
  | c :: cs, p :: ps => c = p && listStartsWith cs ps

/-- JS `s.startsWith(t)`. -/
def strStartsWith (s t : String) : Bool := listStartsWith s.data t.data

/-- JS `s.endsWith(t)`. -/
def strEndsWith (s t : String) : Bool :=
  listStartsWith s.data.reverse t.data.reverse

/-- JS `s.slice(0, -1)`. -/
def strDropLast (s : String) : String :=
  String.mk (s.data.take (s.data.length - 1))

def listLe : List Char → List Char → Bool
  | [], _ => true
  | _ :: _, [] => false
  | a :: as, b :: bs => if a = b then listLe as bs else decide (a < b)

/-- The comparator `a.file.localeCompare(b.file) ≤ 0`, modelled as
lexicographic code-point order. -/
def strLe (a b : String) : Bool := listLe a.data b.data

/-! ## A tiny executable regular-expression matcher

`RE` is the abstract syntax of the (backreference-free) regular expressions
used by the source.  `RE.test` decides whether a pattern matches anywhere in
a string, which is exactly the semantics of JavaScript's `RegExp.test`; for
such boolean tests, greedy and lazy quantifiers coincide, so both are
modelled by `star`.  Character classes are predicates on characters. -/

inductive RE where
  | emp : RE
  | eps : RE
  | cls (p : Char → Bool) : RE
  | cat (a b : RE) : RE
  | alt (a b : RE) : RE
  | star (a : RE) : RE

def RE.nullable : RE → Bool
  | .emp => false
  | .eps => true
  | .cls _ => false
  | .cat a b => a.nullable && b.nullable
  | .alt a b => a.nullable || b.nullable
  | .star _ => true

/-- Smart concatenation: absorbs the empty language and drops `eps`, so
derivatives stay small. -/
def RE.scat : RE → RE → RE
  | .emp, _ => .emp
  | _, .emp => .emp
  | .eps, b => b
  | a, .eps => a
  | a, b => .cat a b

/-- Smart alternation: drops the empty language. -/
def RE.salt : RE → RE → RE
  | .emp, b => b
  | a, .emp => a
  | a, b => .alt a b

/-- Brzozowski derivative of a regular expression by one character, with
smart constructors (same matching semantics, smaller terms). -/
def RE.deriv : RE → Char → RE
  | .emp, _ => .emp
  | .eps, _ => .emp
  | .cls p, c => if p c then .eps else .emp
  | .cat a b, c =>
      if a.nullable then RE.salt (RE.scat (a.deriv c) b) (b.deriv c)
      else RE.scat (a.deriv c) b
  | .alt a b, c => RE.salt (a.deriv c) (b.deriv c)
  | .star a, c => RE.scat (a.deriv c) (.star a)

/-- Does `r` match some (possibly empty) prefix of the character list? -/
def RE.matchPrefix : RE → List Char → Bool
  | .emp, _ => false
  | r, [] => r.nullable
  | r, c :: cs => r.nullable || (r.deriv c).matchPrefix cs

/-- Does `r` match a substring starting at some position of the list? -/
def RE.searchList : RE → List Char → Bool
  | r, [] => r.nullable
  | r, l@(_ :: t) => r.matchPrefix l || r.searchList t

/-- JavaScript `pattern.test(s)` for a `/i`-flagged, unanchored pattern:
the subject is lowercased once and the pattern is written lowercase. -/
def RE.test (r : RE) (s : String) : Bool :=
  r.searchList (strLower s).data

/-- A single literal character. -/
def RE.chr (c : Char) : RE := .cls (fun x => x = c)

/-- A literal string. -/
def RE.lit (s : String) : RE :=
  s.data.foldr (fun c r => .cat (.chr c) r) .eps

/-- `r?` -/
def RE.opt (r : RE) : RE := .alt .eps r

/-- `r+` -/
def RE.plus (r : RE) : RE := .cat r (.star r)

/-- Sequence of regular expressions. -/
def RE.seq (l : List RE) : RE := l.foldr .cat .eps

/-- Alternation over a non-empty list (an empty list yields `RE.emp`). -/
def RE.anyOf (l : List RE) : RE := l.foldr .alt .emp

/-- `r{0,n}`: at most `n` repetitions of `r`. -/
def RE.repMax (r : RE) : Nat → RE
  | 0 => .eps
  | n + 1 => .cat r.opt (RE.repMax r n)

/-- JavaScript `\s` (the inputs considered here are ASCII). -/
def jsSpace (c : Char) : Bool :=
  c = ' ' || c = '\t' || c = '\n' || c = '\x0d' || c = '\x0b' || c = '\x0c'

/-- JavaScript `.` (any character except a line terminator). -/
def jsDot (c : Char) : Bool := !(c = '\n' || c = '\x0d')

/-- `[\s\S]`: truly any character. -/
def anyChar (_ : Char) : Bool := true

/-- Apostrophe, double quote, backtick, and curly-brace characters. -/
def apoC : Char := Char.ofNat 39
def dqC : Char := Char.ofNat 34
def btC : Char := Char.ofNat 96
def lbrC : Char := Char.ofNat 123
def rbrC : Char := Char.ofNat 125

/-- `["']`: a single or double quote. -/
def quoteChar (c : Char) : Bool := c = dqC || c = apoC

/-- `\s*` -/
def sp0 : RE := .star (.cls jsSpace)

/-- `\s+` -/
def sp1 : RE := RE.plus (.cls jsSpace)

/-! ## Pattern transcriptions (src/scanner/extractor.ts, src/rules/mitigation.ts)

Each definition below transcribes one `/.../i` literal of the source into the
`RE` AST, with the pattern written lowercase (the subject is lowercased by
`RE.test`). -/

/-- The keyword alternation of `PROMPT_KEY_PATTERN`:
`system|prompt|instructions?|messages?|role|content|context|directive`. -/
def promptKeyKw : RE := RE.anyOf
  [RE.lit "system", RE.lit "prompt",
   RE.cat (RE.lit "instruction") (RE.opt (RE.chr 's')),
   RE.cat (RE.lit "message") (RE.opt (RE.chr 's')),
   RE.lit "role", RE.lit "content", RE.lit "context", RE.lit "directive"]

/-- `PROMPT_KEY_PATTERN` without its `(?:^|["'])` prefix: keyword followed by
`(?:["']|\s*:)`. -/
def promptKeyBody : RE :=
  RE.cat promptKeyKw (RE.alt (RE.cls quoteChar) (RE.cat sp0 (RE.chr ':')))

/-- `PROMPT_KEY_PATTERN.test(s)`: the `(?:^|["'])` alternative is handled by
matching the body at position 0 or searching for a quote followed by the
body. -/
def promptKeyTest (s : String) : Bool :=
  let l := (strLower s).data
  RE.matchPrefix promptKeyBody l ||
    RE.searchList (RE.cat (RE.cls quoteChar) promptKeyBody) l

/-- `SYSTEM_PHRASE_PATTERN` from src/scanner/extractor.ts. -/
def systemPhraseRE : RE := RE.anyOf
  [RE.lit "you are",
   RE.seq [RE.lit "your ",
     RE.anyOf [RE.lit "role", RE.lit "task", RE.lit "job", RE.lit "purpose"],
     RE.lit " is"],
   RE.lit "do not",
   RE.seq [RE.lit "don", RE.chr apoC, RE.lit "t"],
   RE.lit "never", RE.lit "always", RE.lit "must", RE.lit "system:",
   RE.seq [RE.lit "instruction", RE.opt (RE.chr 's'), RE.lit ":"],
   RE.lit "you must",
   RE.seq [RE.lit "as a", RE.opt (RE.chr 'n'), RE.lit " ",
     RE.anyOf [RE.lit "ai", RE.lit "assistant", RE.lit "bot"]]]

def systemPhraseTest (s : String) : Bool := systemPhraseRE.test s

/-- `ROLE_CONTENT_PATTERN` from src/scanner/extractor.ts. -/
def roleContentRE : RE := RE.seq
  [RE.chr lbrC, sp0, RE.opt (RE.cls quoteChar), RE.lit "role",
   RE.opt (RE.cls quoteChar), sp0, RE.chr ':', sp0, RE.cls quoteChar,
   RE.plus (RE.cls (fun c => !(quoteChar c))), RE.cls quoteChar, sp0,
   RE.chr ',', sp0, RE.opt (RE.cls quoteChar), RE.lit "content",
   RE.opt (RE.cls quoteChar), sp0, RE.chr ':']

def roleContentTest (s : String) : Bool := roleContentRE.test s

/-- `SHELL_EXEC_PATTERN`: `(?:execSync|execFile|spawnSync)\s*\(` or
`(?:exec|spawn)\s*\(\s*[`"']` (the class holds backtick, double and single
quote). -/
def shellExecRE : RE := RE.alt
  (RE.seq [RE.anyOf [RE.lit "execsync", RE.lit "execfile", RE.lit "spawnsync"],
    sp0, RE.chr '('])
  (RE.seq [RE.anyOf [RE.lit "exec", RE.lit "spawn"], sp0, RE.chr '(', sp0,
    RE.cls (fun c => c = btC || c = dqC || c = apoC)])

/-- `MESSAGES_PUSH_PATTERN`. -/
def messagesPushRE : RE := RE.seq
  [RE.lit "messages", sp0, RE.opt (RE.seq [RE.opt (RE.chr '?'), RE.chr '.']),
   sp0, RE.lit "push", sp0, RE.chr '(', sp0, RE.chr lbrC]

/-- `BASE64_CALL_PATTERN`. -/
def base64CallRE : RE := RE.anyOf
  [RE.seq [RE.alt (RE.lit "atob") (RE.lit "btoa"), sp0, RE.chr '('],
   RE.seq [RE.lit ".tostring", sp0, RE.chr '(', sp0, RE.cls quoteChar,
     RE.lit "base64", RE.cls quoteChar, sp0, RE.chr ')'],
   RE.seq [RE.lit "buffer.from", sp0, RE.chr '(',
     RE.plus (RE.cls (fun c => !(c = ')'))), RE.chr ',', sp0,
     RE.cls quoteChar, RE.lit "base64", RE.cls quoteChar]]

/-- `JSON_PARSE_PATTERN`. -/
def jsonParseRE : RE := RE.seq [RE.lit "json.parse", sp0, RE.chr '(']

/-- `MD_RENDER_PATTERN`. -/
def mdRenderRE : RE := RE.anyOf
  [RE.seq [RE.lit "marked", sp0, RE.cls (fun c => c = '.' || c = '(')],
   RE.seq [RE.lit "marked.parse", sp0, RE.chr '('],
   RE.seq [RE.lit "markdownit", sp0, RE.cls (fun c => c = '.' || c = '(')],
   RE.seq [RE.lit "new", sp1, RE.lit "markdownit"],
   RE.seq [RE.lit "dangerouslysetinnerhtml", sp0, RE.chr '=']]

/- The five mitigation detectors of src/rules/mitigation.ts, in order. -/

/-- Check 1: "System instructions cannot be changed". -/
def mitInstrImmRE : RE := RE.anyOf
  [RE.seq [RE.lit "system instruction", RE.opt (RE.chr 's'), RE.lit " ",
     RE.anyOf [RE.lit "cannot", RE.seq [RE.lit "can", RE.chr apoC, RE.lit "t"],
       RE.lit "must not"],
     RE.lit " be ",
     RE.anyOf [RE.lit "changed", RE.lit "modified", RE.lit "overridden",
       RE.lit "ignored"]],
   RE.seq [RE.lit "these instruction", RE.opt (RE.chr 's'), RE.lit " ",
     RE.alt (RE.lit "are") (RE.lit "remain"), RE.lit " ",
     RE.anyOf [RE.lit "permanent", RE.lit "fixed", RE.lit "immutable"]],
   RE.seq [RE.lit "ignore ", RE.alt (RE.lit "any") (RE.lit "all"),
     RE.lit " attempt", RE.opt (RE.chr 's'), RE.lit " to ",
     RE.anyOf [RE.lit "change", RE.lit "modify", RE.lit "override"],
     RE.lit " ", RE.alt (RE.lit "your") (RE.lit "these"),
     RE.lit " instruction", RE.opt (RE.chr 's')]]

/-- `[\s\S]*?` (lazy and greedy coincide under boolean `test`). -/
def anyStar : RE := RE.star (RE.cls anyChar)

/-- Check 2: "User input delimited and labeled untrusted". -/
def mitDelimRE : RE := RE.anyOf
  [RE.seq [RE.chr btC, RE.chr btC, RE.chr btC, anyStar,
     RE.chr btC, RE.chr btC, RE.chr btC],
   RE.seq [RE.lit "<user>", anyStar, RE.lit "</user>"],
   RE.seq [RE.lit "[user]", anyStar, RE.lit "[/user]"],
   RE.seq [RE.lit "untrusted ", RE.opt (RE.lit "user "),
     RE.alt (RE.lit "content") (RE.lit "input")],
   RE.seq [RE.lit "user", RE.repMax (RE.cls jsDot) 20,
     RE.alt (RE.lit "not") (RE.lit "never"), RE.lit " ",
     RE.anyOf [RE.lit "an instruction", RE.lit "trusted", RE.lit "a command"]]]

/-- `(?:prompt|instructions?)` -/
def promptOrInstr : RE :=
  RE.alt (RE.lit "prompt") (RE.cat (RE.lit "instruction") (RE.opt (RE.chr 's')))

/-- Check 3: "Refuses to reveal system prompt". -/
def mitNoRevealRE : RE := RE.alt
  (RE.seq [RE.lit "never ",
    RE.anyOf [RE.lit "reveal", RE.lit "repeat", RE.lit "share",
      RE.lit "disclose", RE.lit "expose", RE.lit "show", RE.lit "print"],
    RE.lit " ", RE.anyOf [RE.lit "your", RE.lit "the", RE.lit "these"],
    RE.lit " ",
    RE.opt (RE.anyOf [RE.lit "system ", RE.lit "hidden ", RE.lit "initial ",
      RE.lit "original "]),
    promptOrInstr])
  (RE.seq [RE.lit "do not ",
    RE.anyOf [RE.lit "reveal", RE.lit "repeat", RE.lit "share",
      RE.lit "disclose"],
    RE.lit " ", RE.anyOf [RE.lit "this", RE.lit "these", RE.lit "your",
      RE.lit "the"],
    RE.lit " ", RE.opt (RE.lit "system "), promptOrInstr])

/-- Check 4: "Tool use constrained with allowlist". -/
def mitAllowRE : RE := RE.anyOf
  [RE.seq [RE.lit "only ",
     RE.anyOf [RE.lit "use", RE.lit "call", RE.lit "invoke"], RE.lit " ",
     RE.opt (RE.lit "the "),
     RE.anyOf [RE.lit "following", RE.lit "listed", RE.lit "allowed",
       RE.lit "approved"]],
   RE.lit "allowlist",
   RE.cat (RE.lit "permitted tool") (RE.opt (RE.chr 's')),
   RE.seq [RE.lit "restricted to", RE.repMax (RE.cls jsDot) 30,
     RE.alt (RE.cat (RE.lit "tool") (RE.opt (RE.chr 's')))
       (RE.cat (RE.lit "function") (RE.opt (RE.chr 's')))]]

/-- Check 5: "RAG context labeled as untrusted". -/
def mitRagRE : RE := RE.anyOf
  [RE.seq [RE.lit "untrusted ",
     RE.opt (RE.alt (RE.lit "external ") (RE.lit "retrieved ")),
     RE.lit "content"],
   RE.seq [RE.lit "external content", RE.repMax (RE.cls jsDot) 40,
     RE.anyOf [RE.lit "may", RE.lit "might", RE.lit "could"], RE.lit " ",
     RE.alt (RE.lit "contain") (RE.lit "include"),
     RE.lit " instruction", RE.opt (RE.chr 's')],
   RE.seq [RE.lit "do not ",
     RE.anyOf [RE.lit "follow", RE.lit "execute", RE.lit "treat"],
     RE.repMax (RE.cls jsDot) 30,
     RE.anyOf [RE.lit "retrieved", RE.lit "external", RE.lit "context"]]]

/-- The `.py` entry of the `LLM_TRIGGERS` table (src/scanner/llmTriggers.ts):
the language-specific trigger for Python files. -/
def pyLLMTriggerRE : RE := RE.anyOf
  [RE.lit "from openai import", RE.lit "import openai",
   RE.lit "from anthropic import", RE.lit "langchain", RE.lit "litellm",
   RE.lit "google.generativeai", RE.lit ".chat.completions.create",
   RE.lit ".messages.create", RE.lit "chatopenai", RE.lit "chatanthropic"]

/-! ## Data model (src/types.ts, src/rules/types.ts, src/scanner/extractor.ts) -/

inductive Severity where
  | low | medium | high | critical
deriving DecidableEq

inductive Confidence where
  | low | medium | high
deriving DecidableEq

inductive FailOn where
  | critical | high | medium
deriving DecidableEq

inductive RuleCategory where
  | injection | exfiltration | jailbreak | unsafeTools | multimodal | skills
deriving DecidableEq

inductive PromptKind where
  | raw | templateString | objectField | chatMessage | codeBlock
deriving DecidableEq

structure ExtractedPrompt where
  text : String
  lineStart : Nat
  lineEnd : Nat
  kind : PromptKind
deriving DecidableEq

structure RuleMatch where
  evidence : String
  lineStart : Nat
  lineEnd : Nat
deriving DecidableEq

structure Rule where
  id : String
  title : String
  severity : Severity
  confidence : Confidence
  category : RuleCategory
  remediation : String
  check : ExtractedPrompt → String → List RuleMatch

structure Finding where
  id : String
  title : String
  severity : Severity
  confidence : Confidence
  evidence : String
  file : String
  lineStart : Nat
  lineEnd : Nat
  remediation : String
  riskPoints : Int
deriving DecidableEq

structure FileResult where
  file : String
  findings : List Finding
  fileScore : Int
deriving DecidableEq

structure ScanResult where
  repoScore : Int
  scoreLabel : Severity
  files : List FileResult
  allFindings : List Finding
  threshold : Int
  passed : Bool
  fileThresholdBreached : Bool
deriving DecidableEq

/-- `AuditConfig` (src/types.ts).  The glob lists and output options are
consumed by discovery and the CLI, which are out of the embedded core;
`cache` and `plugins` are read by src/scanner/pipeline.ts. -/
structure AuditConfig where
  includeGlobs : List String := []
  excludeGlobs : List String := []
  threshold : Int
  maxFindings : Option Nat := none
  failOn : Option FailOn := none
  excludeRules : Option (List String) := none
  includeRules : Option (List String) := none
  minConfidence : Option Confidence := none
  failFileThreshold : Option Int := none
  concurrency : Option Nat := none
  cache : Option Bool := none
  plugins : Option (List String) := none

/-! ## Prompt extraction (src/scanner/extractor.ts)

File reads are I/O: `extractPrompts` takes the file's content as an
`Option String`, `none` standing for a failed `fs.readFileSync` (the source
returns `[]` in that case).  A JS string's `.length` counts UTF-16 units and
Lean's counts characters; they agree on the texts considered here. -/

/-- `path.extname(p)` (POSIX): the part of the basename from its last dot,
empty for no dot or a leading-dot (hidden) file. -/
def extname (p : String) : String :=
  let base := (splitOnChar '/' p).getLastD ""
  let cs := base.data
  match cs.reverse.findIdx? (fun c => c = '.') with
  | none => ""
  | some r =>
    let dotPos := cs.length - 1 - r
    if dotPos = 0 then "" else String.mk (cs.drop dotPos)

def isCodeFile (filePath : String) : Bool :=
  let ext := strLower (extname filePath)
  ext = ".ts" || ext = ".js" || ext = ".tsx" || ext = ".jsx"

def isRawPromptFile (filePath : String) : Bool :=
  let ext := strLower (extname filePath)
  [".prompt", ".txt", ".md"].contains ext

def extractFromRaw (content : String) : List ExtractedPrompt :=
  let lines := splitOnChar '\n' content
  if systemPhraseTest content || content.data.length > 50 then
    [{ text := content, lineStart := 1, lineEnd := lines.length,
       kind := PromptKind.raw }]
  else []

/-- The `object-field` window emitted by `extractFromStructured` at a hit on
0-based line `idx`: `lines.slice(start, end + 1)` with
`end = min(idx + 20, lines.length - 1)`. -/
def mkStructWindow (lines : List String) (idx : Nat) : ExtractedPrompt :=
  let endI := min (idx + 20) (lines.length - 1)
  { text := String.intercalate "\n" ((lines.drop idx).take (endI + 1 - idx)),
    lineStart := idx + 1, lineEnd := endI + 1, kind := PromptKind.objectField }

/-- The `lines.forEach((line, idx) => ...)` loop of `extractFromStructured`. -/
def structGo (lines : List String) : Nat → List String → List ExtractedPrompt
  | _, [] => []
  | idx, line :: rest =>
    (if promptKeyTest line then [mkStructWindow lines idx] else []) ++
      structGo lines (idx + 1) rest

def extractFromStructured (content : String) : List ExtractedPrompt :=
  let lines := splitOnChar '\n' content
  structGo lines 0 lines

/-- `(line.match(/` backtick `/g) || []).length`: backticks on a line. -/
def backtickCount (line : String) : Nat :=
  line.data.countP (fun c => c = btC)

/-- A fixed-width forward window over `lines` from 0-based `start` to `endI`
inclusive, as `extractFromCode` emits for chat-message and object-field
hits. -/
def mkCodeWindow (lines : List String) (start endI : Nat) (kind : PromptKind) :
    ExtractedPrompt :=
  { text := String.intercalate "\n" ((lines.drop start).take (endI + 1 - start)),
    lineStart := start + 1, lineEnd := endI + 1, kind := kind }

/-- The per-line loop of `extractFromCode`: the template-literal 2-state
machine (with its 200-line bail-out), the chat-message detector and the
generic key detector, emitting units in source push order. -/
def codeGo (lines : List String) (n : Nat) :
    Nat → List String → Bool → Nat → List String → List ExtractedPrompt
  | _, [], _, _, _ => []
  | i, line :: rest, inT, tStart, tLines =>
    let odd := backtickCount line % 2 = 1
    let st :=
      if !inT && odd then
        -- opening backtick
        (([] : List ExtractedPrompt), true, i, [line])
      else if inT && odd then
        -- closing backtick
        let text := String.intercalate "\n" (tLines ++ [line])
        ((if systemPhraseTest text || promptKeyTest text then
            [{ text := text, lineStart := tStart + 1, lineEnd := i + 1,
               kind := PromptKind.templateString }]
          else []), false, tStart, ([] : List String))
      else if inT then
        let tl := tLines ++ [line]
        -- safety: bail on very long template literals
        if tl.length > 200 then (([] : List ExtractedPrompt), false, tStart, ([] : List String))
        else (([] : List ExtractedPrompt), true, tStart, tl)
      else (([] : List ExtractedPrompt), false, tStart, tLines)
    let chatHit := roleContentTest line
    let chatEmit :=
      if chatHit then [mkCodeWindow lines i (min (i + 5) (n - 1)) PromptKind.chatMessage]
      else []
    let keyEmit :=
      if promptKeyTest line && !chatHit then
        [mkCodeWindow lines i (min (i + 15) (n - 1)) PromptKind.objectField]
      else []
    st.1 ++ chatEmit ++ keyEmit ++ codeGo lines n (i + 1) rest st.2.1 st.2.2.1 st.2.2.2

def extractFromCode (content : String) : List ExtractedPrompt :=
  let lines := splitOnChar '\n' content
  let perLine := codeGo lines lines.length 0 lines false 0 []
  -- whole-file code-block gate for multi-line analysis
  if shellExecRE.test content || messagesPushRE.test content ||
      base64CallRE.test content || jsonParseRE.test content ||
      mdRenderRE.test content then
    perLine ++ [{ text := content, lineStart := 1, lineEnd := lines.length,
                  kind := PromptKind.codeBlock }]
  else perLine

def extractPrompts (filePath : String) (contentRead : Option String) :
    List ExtractedPrompt :=
  match contentRead with
  | none => []
  | some content =>
    if isRawPromptFile filePath then extractFromRaw content
    else if strEndsWith filePath ".json" || strEndsWith filePath ".yaml" ||
        strEndsWith filePath ".yml" then extractFromStructured content
    else if isCodeFile filePath then extractFromCode content
    else
      -- for other text files, treat as raw
      extractFromRaw content

/-! ## Mitigation scoring (src/rules/mitigation.ts) -/

structure MitCheck where
  name : String
  present : Bool
  reduction : Int
deriving DecidableEq

structure MitigationScore where
  total : Int
  checks : List MitCheck
deriving DecidableEq

def scoreMitigations (prompt : ExtractedPrompt) : MitigationScore :=
  let text := prompt.text
  let checks : List MitCheck :=
    [{ name := "System instructions cannot be changed",
       present := mitInstrImmRE.test text, reduction := 15 },
     { name := "User input delimited and labeled untrusted",
       present := mitDelimRE.test text, reduction := 20 },
     { name := "Refuses to reveal system prompt",
       present := mitNoRevealRE.test text, reduction := 15 },
     { name := "Tool use constrained with allowlist",
       present := mitAllowRE.test text, reduction := 10 },
     { name := "RAG context labeled as untrusted",
       present := mitRagRE.test text, reduction := 10 }]
  { total := checks.foldl (fun sum c => if c.present then sum + c.reduction else sum) 0,
    checks := checks }

/-! ## Risk points (src/rules/types.ts) -/

def severityWeight : Severity → ℚ
  | .low => 5
  | .medium => 15
  | .high => 30
  | .critical => 50

def confidenceMultiplier : Confidence → ℚ
  | .low => 1 / 2
  | .medium => 3 / 4
  | .high => 1

/-- JavaScript `Math.round x = ⌊x + 1/2⌋` (the arguments that occur here are
non-negative, where float and exact rounding agree). -/
def jsRound (q : ℚ) : Int := ⌊q + 1 / 2⌋

/-- `Math.round (a / b)` for an integer `a` over a positive integer `b`,
computed with integer (Euclidean, here floor) division:
`⌊a/b + 1/2⌋ = (2a + b) / (2b)`.  This is the executable form of `jsRound`
(rational arithmetic does not reduce inside the kernel);
`jsRoundFrac_eq_jsRound` proves the two agree. -/
def jsRoundFrac (a : Int) (b : Nat) : Int := (2 * a + b) / (2 * (b : Int))

/-- The numerator/denominator of `CONFIDENCE_MULTIPLIERS` as exact
rationals: `0.5 = 1/2`, `0.75 = 3/4`, `1.0 = 1/1`. -/
def confidenceMulNum : Confidence → Int
  | .low => 1
  | .medium => 3
  | .high => 1

def confidenceMulDen : Confidence → Nat
  | .low => 2
  | .medium => 4
  | .high => 1

def severityWeightInt : Severity → Int
  | .low => 5
  | .medium => 15
  | .high => 30
  | .critical => 50

/-- `calcRiskPoints = Math.round(SEVERITY_WEIGHTS[s] * CONFIDENCE_MULTIPLIERS[c])`
(src/rules/types.ts), computed over integers; `calcRiskPoints_eq` restates it
over ℚ exactly as the source writes it. -/
def calcRiskPoints (s : Severity) (c : Confidence) : Int :=
  jsRoundFrac (severityWeightInt s * confidenceMulNum c) (confidenceMulDen c)

def ruleToFinding (rule : Rule) (m : RuleMatch) (filePath : String) : Finding :=
  { id := rule.id, title := rule.title, severity := rule.severity,
    confidence := rule.confidence, evidence := m.evidence.take 200,
    file := filePath, lineStart := m.lineStart, lineEnd := m.lineEnd,
    remediation := rule.remediation,
    riskPoints := calcRiskPoints rule.severity rule.confidence }

/-! ## Rule dispatch and scoring (src/scoring/index.ts) -/

def matchesFilter (id pattern : String) : Bool :=
  if strEndsWith pattern "*" then strStartsWith id (strDropLast pattern)
  else id = pattern

def confidenceOrder : List Confidence := [.low, .medium, .high]

/-- The three `continue` filters of `analyzePrompt`'s rule loop. -/
def ruleSkipped (config : Option AuditConfig) (rule : Rule) : Bool :=
  match config with
  | none => false
  | some cfg =>
    (match cfg.excludeRules with
     | some pats => pats.any (fun p => matchesFilter rule.id p)
     | none => false) ||
    (match cfg.includeRules with
     | some pats => !pats.isEmpty && !pats.any (fun p => matchesFilter rule.id p)
     | none => false) ||
    (match cfg.minConfidence with
     | some mc => decide (confidenceOrder.indexOf rule.confidence <
         confidenceOrder.indexOf mc)
     | none => false)

/-- The Finding materialized for an unseen match: `ruleToFinding` followed by
the proportional mitigation reduction
`riskPoints = max(1, round(riskPoints * (1 - mitigation.total / 100)))`. -/
def materializeFinding (rule : Rule) (m : RuleMatch) (filePath : String)
    (mitTotal : Int) : Finding :=
  let finding := ruleToFinding rule m filePath
  -- riskPoints * (1 - mitTotal/100) = riskPoints * (100 - mitTotal) / 100,
  -- rounded over integers; `materialize_riskPoints_eq` restates it over ℚ.
  { finding with
    riskPoints := max 1 (jsRoundFrac (finding.riskPoints * (100 - mitTotal)) 100) }

/-- The dedup key.  The source builds the string
`ruleId ++ ":" ++ filePath ++ ":" ++ toString lineStart`; since `lineStart`
prints as digits (no colon), that encoding is injective in the triple
(parse the digit suffix after the last colon, then cancel the fixed
`":" ++ filePath ++ ":"`), so the key is modelled as the triple itself. -/
def dedupKey (ruleId filePath : String) (lineStart : Nat) :
    String × String × Nat :=
  (ruleId, filePath, lineStart)

/-- Inner loop of `analyzePrompt`: the matches of one rule against one
prompt, threaded through the `seen` set. -/
def dispatchMatches (rule : Rule) (filePath : String) (mitTotal : Int) :
    List RuleMatch → List (String × String × Nat) →
    List Finding × List (String × String × Nat)
  | [], seen => ([], seen)
  | m :: ms, seen =>
    let key := dedupKey rule.id filePath m.lineStart
    if seen.contains key then dispatchMatches rule filePath mitTotal ms seen
    else
      let rest := dispatchMatches rule filePath mitTotal ms (key :: seen)
      (materializeFinding rule m filePath mitTotal :: rest.1, rest.2)

/-- Middle loop of `analyzePrompt`: every active rule against one prompt. -/
def dispatchRules (prompt : ExtractedPrompt) (filePath : String)
    (config : Option AuditConfig) (mitTotal : Int) :
    List Rule → List (String × String × Nat) →
    List Finding × List (String × String × Nat)
  | [], seen => ([], seen)
  | r :: rs, seen =>
    if ruleSkipped config r then
      dispatchRules prompt filePath config mitTotal rs seen
    else
      let step := dispatchMatches r filePath mitTotal (r.check prompt filePath) seen
      let rest := dispatchRules prompt filePath config mitTotal rs step.2
      (step.1 ++ rest.1, rest.2)

/-- Outer loop of `analyzePrompt`: each prompt's mitigation is computed once
and applied to all findings from that prompt. -/
def dispatchPrompts (allRules : List Rule) (filePath : String)
    (config : Option AuditConfig) :
    List ExtractedPrompt → List (String × String × Nat) →
    List Finding × List (String × String × Nat)
  | [], seen => ([], seen)
  | p :: ps, seen =>
    let mit := scoreMitigations p
    let step := dispatchRules p filePath config mit.total allRules seen
    let rest := dispatchPrompts allRules filePath config ps step.2
    (step.1 ++ rest.1, rest.2)

/-- `analyzePrompt(prompts, filePath, config)` of src/scoring/index.ts.  The
function takes three parameters and iterates only the registry `allRules`
(imported from src/rules/index.ts, whose ~70 heuristic rule bodies are out of
the specified core and are therefore passed as an explicit parameter
here). -/
def analyzePrompt (allRules : List Rule) (prompts : List ExtractedPrompt)
    (filePath : String) (config : Option AuditConfig) : List Finding :=
  (dispatchPrompts allRules filePath config prompts []).1

def scoreFile (findings : List Finding) : Int :=
  findings.foldl (fun sum f => sum + f.riskPoints) 0

def scoreLabel (score : Int) : Severity :=
  if score < 30 then .low
  else if score < 60 then .medium
  else if score < 80 then .high
  else .critical

def buildScanResult (fileResults : List FileResult) (config : AuditConfig) :
    ScanResult :=
  let allFindings := (fileResults.map (fun f => f.findings)).flatten
  let rawTotal := fileResults.foldl (fun sum f => sum + f.fileScore) 0
  let repoScore := min 100 rawTotal
  let hasCritical := allFindings.any (fun f => f.severity = Severity.critical)
  let hasHighOrAbove := allFindings.any
    (fun f => f.severity = Severity.high || f.severity = Severity.critical)
  let hasMediumOrAbove := allFindings.any (fun f => !(f.severity = Severity.low))
  let passed0 : Bool := repoScore < config.threshold
  let passed1 := if config.failOn = some FailOn.critical && hasCritical then false else passed0
  let passed2 := if config.failOn = some FailOn.high && hasHighOrAbove then false else passed1
  let passed3 := if config.failOn = some FailOn.medium && hasMediumOrAbove then false else passed2
  let fileThresholdBreached :=
    match config.failFileThreshold with
    | some t => fileResults.any (fun f => t ≤ f.fileScore)
    | none => false
  let passed4 := if fileThresholdBreached then false else passed3
  { repoScore := repoScore, scoreLabel := scoreLabel repoScore,
    files := fileResults, allFindings := allFindings,
    threshold := config.threshold, passed := passed4,
    fileThresholdBreached := fileThresholdBreached }

/-! ## Incremental cache (src/scanner/cache.ts)

`fs.statSync(file).mtimeMs` is modelled by a function
`stat : String → Option Int`: `none` stands for a throwing `statSync`
(deleted file), `some m` for modification time `m`. -/

structure CacheEntry where
  mtime : Int
  findings : List Finding
deriving DecidableEq

structure HoundCache where
  version : String
  entries : List (String × CacheEntry)
deriving DecidableEq

def getCachedFindings (stat : String → Option Int) (cache : HoundCache)
    (filePath : String) : Option (List Finding) :=
  match cache.entries.lookup filePath with
  | none => none
  | some entry =>
    match stat filePath with
    | none => none
    | some mtime =>
      if mtime = entry.mtime then some entry.findings else none

/-- JS object-key assignment: replace in place, else append. -/
def upsertEntry : List (String × CacheEntry) → String → CacheEntry →
    List (String × CacheEntry)
  | [], k, v => [(k, v)]
  | (k', v') :: rest, k, v =>
    if k' = k then (k, v) :: rest else (k', v') :: upsertEntry rest k v

def setCacheEntry (stat : String → Option Int) (cache : HoundCache)
    (filePath : String) (findings : List Finding) : HoundCache :=
  match stat filePath with
  | none => cache
  | some mtime =>
    { cache with
      entries := upsertEntry cache.entries filePath
        { mtime := mtime, findings := findings } }

/-! ## Scan pipeline (src/scanner/pipeline.ts)

File discovery, `.houndignore` merging, plugin loading and cache
loading/saving are I/O at the boundary of the core: the discovered `files`,
the loaded `pluginRules` and the loaded `initialCache` are parameters.  The
limiter admits tasks cooperatively on the single-threaded event loop, so the
per-file tasks are modelled as a sequential fold (the final `files[]` is
re-sorted by path regardless of completion order). -/

structure ScanEnv where
  stat : String → Option Int
  content : String → Option String

structure ScanState where
  cache : HoundCache
  fileResults : List FileResult
  totalFindings : Nat
  aborted : Bool

/-- `config.maxFindings && totalFindings >= config.maxFindings` with JS
truthiness (`maxFindings = 0` never aborts). -/
def maxFindingsHit (config : AuditConfig) (total : Nat) : Bool :=
  match config.maxFindings with
  | some m => !(m = 0) && m ≤ total
  | none => false

/-- The body of one per-file task of `runScan`. -/
def processFile (env : ScanEnv) (config : AuditConfig)
    (allRules pluginRules : List Rule) (useCache : Bool)
    (st : ScanState) (file : String) : ScanState :=
  if st.aborted then st
  else
    match (if useCache then getCachedFindings env.stat st.cache file else none) with
    | some cached =>
      if cached.length > 0 then
        let fileScore := scoreFile cached
        let total := st.totalFindings + cached.length
        { st with
          fileResults := st.fileResults ++ [⟨file, cached, fileScore⟩],
          totalFindings := total,
          aborted := st.aborted || maxFindingsHit config total }
      else st
    | none =>
      let prompts := extractPrompts file (env.content file)
      if prompts.isEmpty then
        if useCache then { st with cache := setCacheEntry env.stat st.cache file [] }
        else st
      else
        -- pipeline.ts calls `analyzePrompt(prompts, file, config, pluginRules)`,
        -- but `analyzePrompt` takes three parameters, so the fourth argument is
        -- dropped and `pluginRules` is never consulted.
        let findings := analyzePrompt allRules prompts file (some config)
        let st1 :=
          if useCache then { st with cache := setCacheEntry env.stat st.cache file findings }
          else st
        if findings.isEmpty then st1
        else if st1.aborted then st1 -- recheck after CPU work
        else
          let fileScore := scoreFile findings
          let total := st1.totalFindings + findings.length
          { st1 with
            fileResults := st1.fileResults ++ [⟨file, findings, fileScore⟩],
            totalFindings := total,
            aborted := st1.aborted || maxFindingsHit config total }

/-- `runScan` over already-discovered files: per-file processing, the final
deterministic re-sort of `files[]` by path, and result aggregation. -/
def runScan (env : ScanEnv) (files : List String) (config : AuditConfig)
    (allRules pluginRules : List Rule) (initialCache : HoundCache) :
    ScanResult :=
  let useCache := !(config.cache = some false)
  let cache0 : HoundCache :=
    if useCache then initialCache else { version := "1", entries := [] }
  let final := files.foldl
    (fun st file => processFile env config allRules pluginRules useCache st file)
    { cache := cache0, fileResults := [], totalFindings := 0, aborted := false }
  let sorted := final.fileResults.insertionSort (fun a b => strLe a.file b.file)
  buildScanResult sorted config

/-! ## Further definitions used by the statements and witnesses -/

def listContainsSub : List Char → List Char → Bool
  | [], needle => needle.isEmpty
  | hay@(_ :: t), needle => listStartsWith hay needle || listContainsSub t needle

/-- JS `s.includes(t)`. -/
def strIncludes (s t : String) : Bool := listContainsSub s.data t.data

/-- The deduplication key carried by a materialized Finding. -/
def findingKey (f : Finding) : String × String × Nat :=
  (f.id, f.file, f.lineStart)

/-- "A finding of matching-or-higher severity" for a `failOn` level: the
critical ⊂ high ⊂ medium cascade of `buildScanResult`. -/
def severityAtLeast (fo : FailOn) (s : Severity) : Bool :=
  match fo with
  | .critical => s = Severity.critical
  | .high => s = Severity.high || s = Severity.critical
  | .medium => !(s = Severity.low)

/- Concrete fixtures used by witnesses and counterexamples. -/

/-- The Python fixture of the repository's extractor test: a `.py` file whose
content matches the `.py` LLM-import trigger. -/
def pyFixture : String :=
  "from openai import OpenAI\nclient = OpenAI()\nresp = client.chat.completions.create()"

/-- A 25-line structured (JSON-like) content whose first line matches the
prompt-key pattern. -/
def cexJson : String :=
  String.intercalate "\n" ("\x22prompt\x22: 1" :: List.replicate 24 "a")

/-- The custom plugin rule of the repository's plugin test
(tests/cli.test.ts): fires on `CUSTOM_SECRET_PATTERN`. -/
def plgRule : Rule :=
  { id := "PLG-001", title := "Custom plugin test rule",
    severity := Severity.high, confidence := Confidence.high,
    category := RuleCategory.injection,
    remediation := "Remove the custom pattern.",
    check := fun prompt _ =>
      if strIncludes prompt.text "CUSTOM_SECRET_PATTERN" then
        [{ evidence := "CUSTOM_SECRET_PATTERN", lineStart := 1, lineEnd := 1 }]
      else [] }

/-- A stand-in built-in rule (the registry is a parameter of the embedding;
this one matches the same fixture line). -/
def builtinFixture : Rule :=
  { id := "TEST-001", title := "Fixture rule",
    severity := Severity.high, confidence := Confidence.high,
    category := RuleCategory.injection, remediation := "r",
    check := fun prompt _ =>
      if strIncludes prompt.text "CUSTOM_SECRET_PATTERN" then
        [{ evidence := "CUSTOM_SECRET_PATTERN", lineStart := 1, lineEnd := 1 }]
      else [] }

/-- The target file content of the plugin test (length > 50). -/
def plgContent : String :=
  "CUSTOM_SECRET_PATTERN found here in this test fixture for the plugin system."

def plgEnv : ScanEnv :=
  { stat := fun _ => some 5, content := fun _ => some plgContent }

/-- The raw prompt unit extracted from the plugin test's target file. -/
def plgUnit : ExtractedPrompt :=
  { text := plgContent, lineStart := 1, lineEnd := 1, kind := PromptKind.raw }

def cfg60 : AuditConfig := { threshold := 60 }

/-- A critical finding fixture. -/
def critFinding : Finding :=
  { id := "JBK-001", title := "Known jailbreak phrase detected",
    severity := Severity.critical, confidence := Confidence.high,
    evidence := "e", file := "a.ts", lineStart := 1, lineEnd := 1,
    remediation := "r", riskPoints := 50 }

/-- A cached finding fixture and a cache holding it for `a.txt` at mtime 5. -/
def cachedFinding : Finding :=
  { id := "TEST-001", title := "Fixture rule",
    severity := Severity.low, confidence := Confidence.low,
    evidence := "e", file := "a.txt", lineStart := 1, lineEnd := 1,
    remediation := "r", riskPoints := 3 }

def cacheOne : HoundCache :=
  { version := "1", entries := [("a.txt", { mtime := 5, findings := [cachedFinding] })] }

/-! ## Helper lemmas -/

theorem jsRoundFrac_eq_jsRound (a : Int) (b : Nat) (hb : 0 < b) :
    jsRoundFrac a b = jsRound ((a : ℚ) / (b : ℚ)) := by
  have hb0 : (b : ℚ) ≠ 0 := by exact_mod_cast hb.ne.symm
  have key : (a : ℚ) / (b : ℚ) + 1 / 2 = ((2 * a + b : ℤ) : ℚ) / ((2 * b : ℕ) : ℚ) := by
    push_cast
    field_simp
    ring
  have : jsRound ((a : ℚ) / (b : ℚ)) = ((2 * a + b : ℤ)) / ((2 * b : ℕ) : ℤ) := by
    rw [jsRound, key, Rat.floor_intCast_div_natCast]
  rw [this, jsRoundFrac]
  push_cast
  ring_nf

theorem calcRiskPoints_eq (s : Severity) (c : Confidence) :
    calcRiskPoints s c = jsRound (severityWeight s * confidenceMultiplier c) := by
  cases s <;> cases c <;>
    simp only [calcRiskPoints, severityWeightInt, confidenceMulNum,
      confidenceMulDen, severityWeight, confidenceMultiplier, jsRound,
      jsRoundFrac] <;> norm_num

theorem materialize_riskPoints_eq (rp t : Int) :
    max 1 (jsRoundFrac (rp * (100 - t)) 100) =
      max 1 (jsRound ((rp : ℚ) * (1 - (t : ℚ) / 100))) := by
  rw [jsRoundFrac_eq_jsRound _ 100 (by norm_num)]
  congr 2
  push_cast
  ring


theorem buildScanResult_files_eq (frs : List FileResult) (cfg : AuditConfig) :
    (buildScanResult frs cfg).files = frs := rfl

theorem buildScanResult_allFindings_eq (frs : List FileResult) (cfg : AuditConfig) :
    (buildScanResult frs cfg).allFindings = (frs.map (fun f => f.findings)).flatten := rfl

theorem buildScanResult_repoScore_def (frs : List FileResult) (cfg : AuditConfig) :
    (buildScanResult frs cfg).repoScore =
      min 100 (frs.foldl (fun sum f => sum + f.fileScore) 0) := rfl

theorem foldl_add_fileScore (frs : List FileResult) :
    frs.foldl (fun sum f => sum + f.fileScore) 0 =
      (frs.map (fun f => f.fileScore)).sum := by
  rw [← List.foldl_map, List.sum_eq_foldl]

/-- C3: for every list of FileResults, `buildScanResult` returns
`repoScore = min(100, Σ fileScore)`; with non-negative file scores the repo
score lies in [0, 100]; five files each scoring 50 give 100, not 250. -/
theorem repoScore_min_cap (frs : List FileResult) (cfg : AuditConfig) :
    ((buildScanResult frs cfg).repoScore =
        min 100 ((frs.map (fun f => f.fileScore)).sum)) ∧
    ((∀ fr ∈ frs, 0 ≤ fr.fileScore) →
      0 ≤ (buildScanResult frs cfg).repoScore ∧
        (buildScanResult frs cfg).repoScore ≤ 100) ∧
    (buildScanResult
        [⟨"a", [], 50⟩, ⟨"b", [], 50⟩, ⟨"c", [], 50⟩, ⟨"d", [], 50⟩,
         ⟨"e", [], 50⟩] cfg60).repoScore = 100 := by
  refine ⟨by rw [buildScanResult_repoScore_def, foldl_add_fileScore], ?_, by decide⟩
  intro h
  rw [buildScanResult_repoScore_def, foldl_add_fileScore]
  constructor
  · refine le_min (by norm_num) (List.sum_nonneg ?_)
    intro x hx
    rcases List.mem_map.mp hx with ⟨fr, hfr, rfl⟩
    exact h fr hfr
  · exact min_le_left _ _

theorem passed_chain (frs : List FileResult) (cfg : AuditConfig) :
    (buildScanResult frs cfg).passed =
      (!(match cfg.failFileThreshold with
         | some t => frs.any (fun f => t ≤ f.fileScore)
         | none => false) &&
       !(match cfg.failOn with
         | some fo => ((frs.map (fun f => f.findings)).flatten).any
             (fun f => severityAtLeast fo f.severity)
         | none => false) &&
       ((buildScanResult frs cfg).repoScore < cfg.threshold)) := by
  simp only [buildScanResult]
  rcases hfo : cfg.failOn with _ | fo
  · rcases hft : cfg.failFileThreshold with _ | t
    · simp
    · cases hA : frs.any (fun f => decide (t ≤ f.fileScore)) <;> simp [hA]
  · rcases hft : cfg.failFileThreshold with _ | t
    · cases fo <;>
        [cases hA : ((frs.map (fun f => f.findings)).flatten).any
            (fun f => decide (f.severity = Severity.critical));
         cases hA : ((frs.map (fun f => f.findings)).flatten).any
            (fun f => decide (f.severity = Severity.high) ||
              decide (f.severity = Severity.critical));
         cases hA : ((frs.map (fun f => f.findings)).flatten).any
            (fun f => !decide (f.severity = Severity.low))] <;>
        simp [severityAtLeast, hA]
    · cases hF : frs.any (fun f => decide (t ≤ f.fileScore)) <;>
        cases fo <;>
        [cases hA : ((frs.map (fun f => f.findings)).flatten).any
            (fun f => decide (f.severity = Severity.critical));
         cases hA : ((frs.map (fun f => f.findings)).flatten).any
            (fun f => decide (f.severity = Severity.high) ||
              decide (f.severity = Severity.critical));
         cases hA : ((frs.map (fun f => f.findings)).flatten).any
            (fun f => !decide (f.severity = Severity.low));
         cases hA : ((frs.map (fun f => f.findings)).flatten).any
            (fun f => decide (f.severity = Severity.critical));
         cases hA : ((frs.map (fun f => f.findings)).flatten).any
            (fun f => decide (f.severity = Severity.high) ||
              decide (f.severity = Severity.critical));
         cases hA : ((frs.map (fun f => f.findings)).flatten).any
            (fun f => !decide (f.severity = Severity.low))] <;>
        simp [severityAtLeast, hA, hF]

/-- C2: `passed` is `repoScore < threshold`, forced to `false` when `failOn`
is set and a finding of matching-or-higher severity exists (critical ⊂ high
⊂ medium cascade), or when `failFileThreshold` is set and some file's score
reaches it; threshold 60 with repoScore 50 passes, while the same score with
`failOn = critical` and one critical Finding present fails. -/
theorem passed_verdict (frs : List FileResult) (cfg : AuditConfig) :
    ((buildScanResult frs cfg).passed = true ↔
      ((buildScanResult frs cfg).repoScore < cfg.threshold ∧
       (∀ fo, cfg.failOn = some fo →
         ∀ f ∈ (buildScanResult frs cfg).allFindings,
           severityAtLeast fo f.severity = false) ∧
       (∀ t, cfg.failFileThreshold = some t → ∀ fr ∈ frs, fr.fileScore < t))) ∧
    (buildScanResult [⟨"a.ts", [], 50⟩] cfg60).passed = true ∧
    (buildScanResult [⟨"a.ts", [critFinding], 50⟩]
        { threshold := 60, failOn := some FailOn.critical }).passed = false := by
  refine ⟨?_, by decide, by decide⟩
  rw [passed_chain, buildScanResult_allFindings_eq]
  simp only [Bool.and_eq_true, Bool.not_eq_true', decide_eq_true_eq]
  constructor
  · rintro ⟨⟨hft, hfo⟩, hth⟩
    refine ⟨hth, ?_, ?_⟩
    · intro fo h
      rw [h] at hfo
      intro f hf
      have := (List.any_eq_false.mp hfo) f hf
      simpa using this
    · intro t h fr hfr
      rw [h] at hft
      have := (List.any_eq_false.mp hft) fr hfr
      simp at this
      omega
  · rintro ⟨hth, hfo, hft⟩
    refine ⟨⟨?_, ?_⟩, hth⟩
    · rcases h : cfg.failFileThreshold with _ | t
      · rfl
      · refine List.any_eq_false.mpr ?_
        intro fr hfr
        have := hft t h fr hfr
        simp
        omega
    · rcases h : cfg.failOn with _ | fo
      · rfl
      · exact List.any_eq_false.mpr (fun f hf => by simpa using hfo fo h f hf)

theorem extractFromRaw_pos (content : String)
    (hc : (systemPhraseTest content || decide (content.data.length > 50)) = true) :
    extractFromRaw content =
      [{ text := content, lineStart := 1,
         lineEnd := (splitOnChar '\n' content).length,
         kind := PromptKind.raw }] := by
  unfold extractFromRaw
  dsimp only
  rw [hc]
  simp

theorem extractFromRaw_neg (content : String)
    (hc : (systemPhraseTest content || decide (content.data.length > 50)) = false) :
    extractFromRaw content = [] := by
  unfold extractFromRaw
  dsimp only
  rw [hc]
  simp

/-- C9: for a raw-text file (`.txt`, `.prompt`, or an extension neither raw,
structured nor code), extraction yields exactly one `raw` unit spanning the
whole file iff the content's length exceeds 50 or the content matches the
system-phrase pattern, and nothing otherwise. -/
theorem raw_extraction_iff (fp content : String)
    (h : strLower (extname fp) = ".txt" ∨ strLower (extname fp) = ".prompt" ∨
         (isRawPromptFile fp = false ∧ strEndsWith fp ".json" = false ∧
          strEndsWith fp ".yaml" = false ∧ strEndsWith fp ".yml" = false ∧
          isCodeFile fp = false)) :
    (extractPrompts fp (some content) =
        [{ text := content, lineStart := 1,
           lineEnd := (splitOnChar '\n' content).length,
           kind := PromptKind.raw }] ↔
      (50 < content.data.length ∨ systemPhraseTest content = true)) ∧
    (¬ (50 < content.data.length ∨ systemPhraseTest content = true) →
      extractPrompts fp (some content) = []) := by
  have hdisp : extractPrompts fp (some content) = extractFromRaw content := by
    rcases h with h | h | ⟨h1, h2, h3, h4, h5⟩
    · have : isRawPromptFile fp = true := by
        simp only [isRawPromptFile, h]
        decide
      simp [extractPrompts, this]
    · have : isRawPromptFile fp = true := by
        simp only [isRawPromptFile, h]
        decide
      simp [extractPrompts, this]
    · simp [extractPrompts, h1, h2, h3, h4, h5]
  rw [hdisp]
  cases hc : (systemPhraseTest content || decide (content.data.length > 50)) with
  | true =>
    have hcond : 50 < content.data.length ∨ systemPhraseTest content = true := by
      have h2 := hc
      rw [Bool.or_eq_true] at h2
      rcases h2 with hs | hl
      · exact Or.inr hs
      · exact Or.inl (of_decide_eq_true hl)
    rw [extractFromRaw_pos content hc]
    exact ⟨⟨fun _ => hcond, fun _ => rfl⟩, fun h' => absurd hcond h'⟩
  | false =>
    have hs : systemPhraseTest content = false := by
      cases hb : systemPhraseTest content
      · rfl
      · rw [hb] at hc
        simp at hc
    have hncond : ¬ (50 < content.data.length ∨ systemPhraseTest content = true) := by
      rintro (h50 | hph)
      · rw [hs] at hc
        simp at hc
        have hlen : content.length = content.data.length := rfl
        omega
      · rw [hph] at hs
        cases hs
    rw [extractFromRaw_neg content hc]
    exact ⟨⟨fun hEq => absurd hEq (by simp), fun hcond => absurd hcond hncond⟩,
      fun _ => rfl⟩

/-- C9 witness: a `.txt` file of length > 50 with no recognizable phrase
still yields exactly one `raw` unit spanning the whole file. -/
theorem raw_extraction_iff_witness :
    extractPrompts "notes.txt"
        (some "word word word word word word word word word word word 12345") =
      [{ text := "word word word word word word word word word word word 12345",
         lineStart := 1, lineEnd := 1, kind := PromptKind.raw }] :=
  ((raw_extraction_iff "notes.txt"
      "word word word word word word word word word word word 12345"
      (Or.inl (by decide))).1).mpr (Or.inl (by decide))

/-- C5 (code bug): a `.py` file whose content matches the `.py` entry of the
LLM-import trigger table is routed to the raw-text branch of
`extractPrompts` — only `.ts/.js/.tsx/.jsx` count as code files there — so
the whole file comes back as a single `raw` unit and no `code-block` unit is
emitted, against the spec and the repository's own extractor test. -/
theorem py_trigger_yields_raw_not_codeBlock :
    pyLLMTriggerRE.test pyFixture = true ∧
    isCodeFile "test.py" = false ∧
    (extractPrompts "test.py" (some pyFixture)).map (fun u => u.kind) =
      [PromptKind.raw] := by
  refine ⟨by decide, by decide, by decide⟩

/-- C6 counterexample: on a 25-line structured file with a prompt-key hit on
line 1, the emitted window runs through line 21 — its text spans 21 lines,
not the 20 the claim states. -/
theorem structured_window_21_lines :
    (extractFromStructured cexJson).map (fun u => (u.lineStart, u.lineEnd)) =
      [(1, 21)] ∧
    (extractFromStructured cexJson).map
        (fun u => (splitOnChar '\n' u.text).length) = [21] ∧
    (21 : Nat) ≠ 20 := by
  refine ⟨by decide, by decide, by decide⟩

theorem splitOnCharAux_length_pos (sep : Char) :
    ∀ (cs acc : List Char), 1 ≤ (splitOnCharAux sep cs acc).length := by
  intro cs
  induction cs with
  | nil => intro acc; simp [splitOnCharAux]
  | cons c cs ih =>
    intro acc
    unfold splitOnCharAux
    by_cases h : c = sep
    · rw [if_pos h]
      simp
    · rw [if_neg h]
      exact ih _

theorem splitOnChar_length_pos (sep : Char) (s : String) :
    1 ≤ (splitOnChar sep s).length :=
  splitOnCharAux_length_pos sep s.data []

theorem structGo_mem (lines : List String) :
    ∀ (rest : List String) (idx : Nat) (u : ExtractedPrompt),
      u ∈ structGo lines idx rest →
      ∃ j, j < rest.length ∧ promptKeyTest (rest.getD j "") = true ∧
        u = mkStructWindow lines (idx + j) := by
  intro rest
  induction rest with
  | nil =>
    intro idx u hu
    simp [structGo] at hu
  | cons line rest ih =>
    intro idx u hu
    unfold structGo at hu
    rcases List.mem_append.mp hu with h1 | h2
    · by_cases hp : promptKeyTest line = true
      · rw [if_pos hp] at h1
        rcases List.mem_singleton.mp h1 with rfl
        exact ⟨0, by simp, by simpa using hp, by simp⟩
      · rw [if_neg hp] at h1
        cases h1
    · rcases ih (idx + 1) u h2 with ⟨j, hj, hp, hu'⟩
      refine ⟨j + 1, by simpa using Nat.succ_lt_succ hj, by simpa using hp, ?_⟩
      rw [hu']
      congr 1
      omega

theorem structGo_countP (lines : List String) (k : Nat) :
    ∀ (rest : List String) (idx : Nat),
      (structGo lines idx rest).countP (fun u => u.lineStart = k + 1) =
        if idx ≤ k ∧ k - idx < rest.length ∧
            promptKeyTest (rest.getD (k - idx) "") = true
        then 1 else 0 := by
  intro rest
  induction rest with
  | nil =>
    intro idx
    rw [structGo]
    simp
  | cons line rest ih =>
    intro idx
    unfold structGo
    rw [List.countP_append, ih (idx + 1)]
    rcases Nat.lt_trichotomy idx k with hik | hik | hik
    · -- idx < k: head window (if any) has lineStart idx+1 ≠ k+1
      have hd : (if promptKeyTest line = true then [mkStructWindow lines idx]
          else []).countP (fun u => u.lineStart = k + 1) = 0 := by
        by_cases hp : promptKeyTest line = true
        · rw [if_pos hp]
          simp [mkStructWindow, List.countP_cons]
          omega
        · rw [if_neg hp]
          rfl
      rw [hd]
      have hget : (line :: rest).getD (k - idx) "" = rest.getD (k - idx - 1) "" := by
        rcases Nat.exists_eq_add_of_lt hik with ⟨d, rfl⟩
        have : idx + d + 1 - idx = d + 1 := by omega
        rw [this]
        simp
      rw [hget]
      have harith : (idx + 1 ≤ k ∧ k - (idx + 1) < rest.length ∧
            promptKeyTest (rest.getD (k - (idx + 1)) "") = true) ↔
          (idx ≤ k ∧ k - idx < rest.length + 1 ∧
            promptKeyTest (rest.getD (k - idx - 1) "") = true) := by
        constructor
        · rintro ⟨h1, h2, h3⟩
          exact ⟨by omega, by omega, by simpa [Nat.sub_sub] using h3⟩
        · rintro ⟨h1, h2, h3⟩
          exact ⟨by omega, by omega, by simpa [Nat.sub_sub] using h3⟩
      by_cases hcond : idx + 1 ≤ k ∧ k - (idx + 1) < rest.length ∧
          promptKeyTest (rest.getD (k - (idx + 1)) "") = true
      · rw [if_pos hcond, if_pos (by simpa using harith.mp hcond)]
      · rw [if_neg hcond, if_neg (fun hh => hcond (harith.mpr (by simpa using hh)))]
    · -- idx = k: the head decides everything
      subst hik
      have htail : ¬ (idx + 1 ≤ idx ∧ idx - (idx + 1) < rest.length ∧
          promptKeyTest (rest.getD (idx - (idx + 1)) "") = true) := by
        rintro ⟨h1, _, _⟩
        omega
      rw [if_neg htail]
      by_cases hp : promptKeyTest line = true
      · rw [if_pos hp, if_pos (show idx ≤ idx ∧ idx - idx < (line :: rest).length ∧
            promptKeyTest ((line :: rest).getD (idx - idx) "") = true from
          ⟨Nat.le_refl idx, by simp, by simpa using hp⟩)]
        simp [mkStructWindow, List.countP_cons]
      · rw [if_neg hp, if_neg (fun hh => hp (by simpa using hh.2.2))]
        rfl
    · -- k < idx: nothing matches
      have hd : (if promptKeyTest line = true then [mkStructWindow lines idx]
          else []).countP (fun u => u.lineStart = k + 1) = 0 := by
        by_cases hp : promptKeyTest line = true
        · rw [if_pos hp]
          simp [mkStructWindow, List.countP_cons]
          omega
        · rw [if_neg hp]
          rfl
      rw [hd]
      rw [if_neg (by rintro ⟨h1, _, _⟩; omega),
        if_neg (by rintro ⟨h1, _, _⟩; omega)]

theorem min_window_eq (j n : Nat) (hn : 1 ≤ n) :
    min (j + 20) (n - 1) + 1 = min (j + 21) n := by
  rcases Nat.le_total (j + 20) (n - 1) with h | h
  · rw [Nat.min_eq_left h, Nat.min_eq_left (by omega)]
  · rw [Nat.min_eq_right h, Nat.min_eq_right (by omega)]
    omega

/-- C6 (amended): on structured content, each prompt-key hit at 0-based line
`i` yields exactly one `object-field` unit, whose window spans the hit line
plus the following 20 lines (21 lines in all), clipped at end of file;
windows of different hits may overlap. -/
theorem structured_window_spec (content : String) :
    (∀ u ∈ extractFromStructured content,
       u.kind = PromptKind.objectField ∧
       ∃ i, i < (splitOnChar '\n' content).length ∧
         promptKeyTest ((splitOnChar '\n' content).getD i "") = true ∧
         u.lineStart = i + 1 ∧
         u.lineEnd = min (i + 21) (splitOnChar '\n' content).length ∧
         u.text = String.intercalate "\n"
           (((splitOnChar '\n' content).drop i).take
             (min (i + 21) (splitOnChar '\n' content).length - i))) ∧
    (∀ i, i < (splitOnChar '\n' content).length →
       promptKeyTest ((splitOnChar '\n' content).getD i "") = true →
       (extractFromStructured content).countP (fun u => u.lineStart = i + 1) = 1) := by
  have hn : 1 ≤ (splitOnChar '\n' content).length := splitOnChar_length_pos _ _
  constructor
  · intro u hu
    have hu' : u ∈ structGo (splitOnChar '\n' content) 0 (splitOnChar '\n' content) := by
      simpa [extractFromStructured] using hu
    rcases structGo_mem _ _ _ _ hu' with ⟨j, hj, hp, rfl⟩
    rw [Nat.zero_add]
    refine ⟨rfl, j, hj, hp, by simp [mkStructWindow], ?_, ?_⟩
    · show min (j + 20) ((splitOnChar '\n' content).length - 1) + 1 = _
      exact min_window_eq j _ hn
    · show String.intercalate "\n" (((splitOnChar '\n' content).drop j).take
          (min (j + 20) ((splitOnChar '\n' content).length - 1) + 1 - j)) = _
      rw [min_window_eq j _ hn]
  · intro i hi hp
    have h := structGo_countP (splitOnChar '\n' content) i (splitOnChar '\n' content) 0
    have hcond : 0 ≤ i ∧ i - 0 < (splitOnChar '\n' content).length ∧
        promptKeyTest ((splitOnChar '\n' content).getD (i - 0) "") = true :=
      ⟨Nat.zero_le i, by simpa using hi, by simpa using hp⟩
    rw [if_pos hcond] at h
    simpa [extractFromStructured] using h

theorem contains_iff_mem_key (seen : List (String × String × Nat))
    (k : String × String × Nat) : seen.contains k = true ↔ k ∈ seen :=
  List.elem_iff

theorem findingKey_materialize (rule : Rule) (m : RuleMatch) (fp : String)
    (t : Int) :
    findingKey (materializeFinding rule m fp t) = dedupKey rule.id fp m.lineStart :=
  rfl

theorem dispatchMatches_mem (rule : Rule) (fp : String) (t : Int) :
    ∀ (ms : List RuleMatch) (seen : List (String × String × Nat)),
      ∀ f ∈ (dispatchMatches rule fp t ms seen).1,
        ∃ m ∈ ms, f = materializeFinding rule m fp t := by
  intro ms
  induction ms with
  | nil => intro seen f hf; simp [dispatchMatches] at hf
  | cons m ms ih =>
    intro seen f hf
    unfold dispatchMatches at hf
    by_cases hc : seen.contains (dedupKey rule.id fp m.lineStart) = true
    · rw [if_pos hc] at hf
      rcases ih seen f hf with ⟨m', hm', rfl⟩
      exact ⟨m', List.mem_cons_of_mem m hm', rfl⟩
    · rw [if_neg hc] at hf
      rcases List.mem_cons.mp hf with rfl | hf'
      · exact ⟨m, List.mem_cons_self m ms, rfl⟩
      · rcases ih _ f hf' with ⟨m', hm', rfl⟩
        exact ⟨m', List.mem_cons_of_mem m hm', rfl⟩

theorem dispatchMatches_seen_mono (rule : Rule) (fp : String) (t : Int) :
    ∀ (ms : List RuleMatch) (seen : List (String × String × Nat)) (k),
      k ∈ seen → k ∈ (dispatchMatches rule fp t ms seen).2 := by
  intro ms
  induction ms with
  | nil => intro seen k hk; simpa [dispatchMatches] using hk
  | cons m ms ih =>
    intro seen k hk
    unfold dispatchMatches
    by_cases hc : seen.contains (dedupKey rule.id fp m.lineStart) = true
    · rw [if_pos hc]
      exact ih seen k hk
    · rw [if_neg hc]
      exact ih _ k (List.mem_cons_of_mem _ hk)

theorem dispatchMatches_out_keys (rule : Rule) (fp : String) (t : Int) :
    ∀ (ms : List RuleMatch) (seen : List (String × String × Nat)),
      ∀ f ∈ (dispatchMatches rule fp t ms seen).1,
        findingKey f ∉ seen ∧ findingKey f ∈ (dispatchMatches rule fp t ms seen).2 := by
  intro ms
  induction ms with
  | nil => intro seen f hf; simp [dispatchMatches] at hf
  | cons m ms ih =>
    intro seen f hf
    unfold dispatchMatches at hf ⊢
    by_cases hc : seen.contains (dedupKey rule.id fp m.lineStart) = true
    · rw [if_pos hc] at hf ⊢
      exact ih seen f hf
    · rw [if_neg hc] at hf ⊢
      rcases List.mem_cons.mp hf with rfl | hf'
      · refine ⟨?_, ?_⟩
        · rw [findingKey_materialize]
          exact fun hmem => hc ((contains_iff_mem_key seen _).mpr hmem)
        · rw [findingKey_materialize]
          exact dispatchMatches_seen_mono rule fp t ms _ _ (List.mem_cons_self _ _)
      · rcases ih _ f hf' with ⟨hnot, hin⟩
        exact ⟨fun hmem => hnot (List.mem_cons_of_mem _ hmem), hin⟩

theorem dispatchMatches_pairwise (rule : Rule) (fp : String) (t : Int) :
    ∀ (ms : List RuleMatch) (seen : List (String × String × Nat)),
      (dispatchMatches rule fp t ms seen).1.Pairwise
        (fun f g => findingKey f ≠ findingKey g) := by
  intro ms
  induction ms with
  | nil => intro seen; simp [dispatchMatches]
  | cons m ms ih =>
    intro seen
    unfold dispatchMatches
    by_cases hc : seen.contains (dedupKey rule.id fp m.lineStart) = true
    · rw [if_pos hc]
      exact ih seen
    · rw [if_neg hc]
      refine List.pairwise_cons.mpr ⟨?_, ih _⟩
      intro g hg
      rcases dispatchMatches_out_keys rule fp t ms _ g hg with ⟨hnot, _⟩
      rw [findingKey_materialize]
      exact fun hEq => hnot (hEq ▸ List.mem_cons_self _ _)

theorem dispatchMatches_closure (rule : Rule) (fp : String) (t : Int) :
    ∀ (ms : List RuleMatch) (seen : List (String × String × Nat)) (k),
      k ∈ (dispatchMatches rule fp t ms seen).2 →
      k ∈ seen ∨ ∃ f ∈ (dispatchMatches rule fp t ms seen).1, findingKey f = k := by
  intro ms
  induction ms with
  | nil => intro seen k hk; left; simpa [dispatchMatches] using hk
  | cons m ms ih =>
    intro seen k hk
    unfold dispatchMatches at hk ⊢
    by_cases hc : seen.contains (dedupKey rule.id fp m.lineStart) = true
    · rw [if_pos hc] at hk ⊢
      exact ih seen k hk
    · rw [if_neg hc] at hk ⊢
      rcases ih _ k hk with hk' | ⟨f, hf, hkey⟩
      · rcases List.mem_cons.mp hk' with rfl | hseen
        · right
          exact ⟨materializeFinding rule m fp t, List.mem_cons_self _ _,
            findingKey_materialize rule m fp t⟩
        · left; exact hseen
      · right
        exact ⟨f, List.mem_cons_of_mem _ hf, hkey⟩

theorem dispatchMatches_complete (rule : Rule) (fp : String) (t : Int) :
    ∀ (ms : List RuleMatch) (seen : List (String × String × Nat)),
      ∀ m ∈ ms, dedupKey rule.id fp m.lineStart ∈ (dispatchMatches rule fp t ms seen).2 := by
  intro ms
  induction ms with
  | nil => intro seen m hm; simp at hm
  | cons m0 ms ih =>
    intro seen m hm
    unfold dispatchMatches
    by_cases hc : seen.contains (dedupKey rule.id fp m0.lineStart) = true
    · rw [if_pos hc]
      rcases List.mem_cons.mp hm with rfl | hm'
      · exact dispatchMatches_seen_mono rule fp t ms seen _
          ((contains_iff_mem_key seen _).mp hc)
      · exact ih seen m hm'
    · rw [if_neg hc]
      rcases List.mem_cons.mp hm with rfl | hm'
      · exact dispatchMatches_seen_mono rule fp t ms _ _ (List.mem_cons_self _ _)
      · exact ih _ m hm'

theorem dispatchRules_mem (p : ExtractedPrompt) (fp : String)
    (cfg : Option AuditConfig) (t : Int) :
    ∀ (rs : List Rule) (seen : List (String × String × Nat)),
      ∀ f ∈ (dispatchRules p fp cfg t rs seen).1,
        ∃ r ∈ rs, ruleSkipped cfg r = false ∧
          ∃ m ∈ r.check p fp, f = materializeFinding r m fp t := by
  intro rs
  induction rs with
  | nil => intro seen f hf; simp [dispatchRules] at hf
  | cons r rs ih =>
    intro seen f hf
    unfold dispatchRules at hf
    by_cases hs : ruleSkipped cfg r = true
    · rw [if_pos hs] at hf
      rcases ih seen f hf with ⟨r', hr', hsk, hm⟩
      exact ⟨r', List.mem_cons_of_mem r hr', hsk, hm⟩
    · rw [if_neg hs] at hf
      rcases List.mem_append.mp hf with h1 | h2
      · rcases dispatchMatches_mem r fp t _ seen f h1 with ⟨m, hm, rfl⟩
        exact ⟨r, List.mem_cons_self r rs, Bool.not_eq_true _ ▸ by
          simpa using hs, m, hm, rfl⟩
      · rcases ih _ f h2 with ⟨r', hr', hsk, hm⟩
        exact ⟨r', List.mem_cons_of_mem r hr', hsk, hm⟩

theorem dispatchRules_seen_mono (p : ExtractedPrompt) (fp : String)
    (cfg : Option AuditConfig) (t : Int) :
    ∀ (rs : List Rule) (seen : List (String × String × Nat)) (k),
      k ∈ seen → k ∈ (dispatchRules p fp cfg t rs seen).2 := by
  intro rs
  induction rs with
  | nil => intro seen k hk; simpa [dispatchRules] using hk
  | cons r rs ih =>
    intro seen k hk
    unfold dispatchRules
    by_cases hs : ruleSkipped cfg r = true
    · rw [if_pos hs]
      exact ih seen k hk
    · rw [if_neg hs]
      exact ih _ k (dispatchMatches_seen_mono r fp t _ seen k hk)

theorem dispatchRules_out_keys (p : ExtractedPrompt) (fp : String)
    (cfg : Option AuditConfig) (t : Int) :
    ∀ (rs : List Rule) (seen : List (String × String × Nat)),
      ∀ f ∈ (dispatchRules p fp cfg t rs seen).1,
        findingKey f ∉ seen ∧ findingKey f ∈ (dispatchRules p fp cfg t rs seen).2 := by
  intro rs
  induction rs with
  | nil => intro seen f hf; simp [dispatchRules] at hf
  | cons r rs ih =>
    intro seen f hf
    unfold dispatchRules at hf ⊢
    by_cases hs : ruleSkipped cfg r = true
    · rw [if_pos hs] at hf ⊢
      exact ih seen f hf
    · rw [if_neg hs] at hf ⊢
      rcases List.mem_append.mp hf with h1 | h2
      · rcases dispatchMatches_out_keys r fp t _ seen f h1 with ⟨hnot, hin⟩
        exact ⟨hnot, dispatchRules_seen_mono p fp cfg t rs _ _ hin⟩
      · rcases ih _ f h2 with ⟨hnot, hin⟩
        refine ⟨fun hmem => hnot ?_, hin⟩
        exact dispatchMatches_seen_mono r fp t _ seen _ hmem

theorem dispatchRules_pairwise (p : ExtractedPrompt) (fp : String)
    (cfg : Option AuditConfig) (t : Int) :
    ∀ (rs : List Rule) (seen : List (String × String × Nat)),
      (dispatchRules p fp cfg t rs seen).1.Pairwise
        (fun f g => findingKey f ≠ findingKey g) := by
  intro rs
  induction rs with
  | nil => intro seen; simp [dispatchRules]
  | cons r rs ih =>
    intro seen
    unfold dispatchRules
    by_cases hs : ruleSkipped cfg r = true
    · rw [if_pos hs]
      exact ih seen
    · rw [if_neg hs]
      refine List.pairwise_append.mpr ⟨dispatchMatches_pairwise r fp t _ seen, ih _, ?_⟩
      intro f hf g hg
      rcases dispatchMatches_out_keys r fp t _ seen f hf with ⟨_, hfin⟩
      rcases dispatchRules_out_keys p fp cfg t rs _ g hg with ⟨hgnot, _⟩
      exact fun hEq => hgnot (hEq ▸ hfin)

theorem dispatchRules_closure (p : ExtractedPrompt) (fp : String)
    (cfg : Option AuditConfig) (t : Int) :
    ∀ (rs : List Rule) (seen : List (String × String × Nat)) (k),
      k ∈ (dispatchRules p fp cfg t rs seen).2 →
      k ∈ seen ∨ ∃ f ∈ (dispatchRules p fp cfg t rs seen).1, findingKey f = k := by
  intro rs
  induction rs with
  | nil => intro seen k hk; left; simpa [dispatchRules] using hk
  | cons r rs ih =>
    intro seen k hk
    unfold dispatchRules at hk ⊢
    by_cases hs : ruleSkipped cfg r = true
    · rw [if_pos hs] at hk ⊢
      exact ih seen k hk
    · rw [if_neg hs] at hk ⊢
      rcases ih _ k hk with hk' | ⟨f, hf, hkey⟩
      · rcases dispatchMatches_closure r fp t _ seen k hk' with hk'' | ⟨f, hf, hkey⟩
        · left; exact hk''
        · right; exact ⟨f, List.mem_append.mpr (Or.inl hf), hkey⟩
      · right; exact ⟨f, List.mem_append.mpr (Or.inr hf), hkey⟩

theorem dispatchRules_complete (p : ExtractedPrompt) (fp : String)
    (cfg : Option AuditConfig) (t : Int) :
    ∀ (rs : List Rule) (seen : List (String × String × Nat)),
      ∀ r ∈ rs, ruleSkipped cfg r = false →
      ∀ m ∈ r.check p fp,
        dedupKey r.id fp m.lineStart ∈ (dispatchRules p fp cfg t rs seen).2 := by
  intro rs
  induction rs with
  | nil => intro seen r hr; simp at hr
  | cons r0 rs ih =>
    intro seen r hr hsk m hm
    unfold dispatchRules
    rcases List.mem_cons.mp hr with rfl | hr'
    · rw [if_neg (by simp [hsk])]
      exact dispatchRules_seen_mono p fp cfg t rs _ _
        (dispatchMatches_complete r fp t _ seen m hm)
    · by_cases hs0 : ruleSkipped cfg r0 = true
      · rw [if_pos hs0]
        exact ih seen r hr' hsk m hm
      · rw [if_neg hs0]
        exact ih _ r hr' hsk m hm

theorem dispatchPrompts_mem (rules : List Rule) (fp : String)
    (cfg : Option AuditConfig) :
    ∀ (ps : List ExtractedPrompt) (seen : List (String × String × Nat)),
      ∀ f ∈ (dispatchPrompts rules fp cfg ps seen).1,
        ∃ p ∈ ps, ∃ r ∈ rules, ruleSkipped cfg r = false ∧
          ∃ m ∈ r.check p fp,
            f = materializeFinding r m fp (scoreMitigations p).total := by
  intro ps
  induction ps with
  | nil => intro seen f hf; simp [dispatchPrompts] at hf
  | cons p ps ih =>
    intro seen f hf
    unfold dispatchPrompts at hf
    rcases List.mem_append.mp hf with h1 | h2
    · rcases dispatchRules_mem p fp cfg _ rules seen f h1 with ⟨r, hr, hsk, m, hm, rfl⟩
      exact ⟨p, List.mem_cons_self p ps, r, hr, hsk, m, hm, rfl⟩
    · rcases ih _ f h2 with ⟨p', hp', rest⟩
      exact ⟨p', List.mem_cons_of_mem p hp', rest⟩

theorem dispatchPrompts_seen_mono (rules : List Rule) (fp : String)
    (cfg : Option AuditConfig) :
    ∀ (ps : List ExtractedPrompt) (seen : List (String × String × Nat)) (k),
      k ∈ seen → k ∈ (dispatchPrompts rules fp cfg ps seen).2 := by
  intro ps
  induction ps with
  | nil => intro seen k hk; simpa [dispatchPrompts] using hk
  | cons p ps ih =>
    intro seen k hk
    unfold dispatchPrompts
    exact ih _ k (dispatchRules_seen_mono p fp cfg _ rules seen k hk)

theorem dispatchPrompts_out_keys (rules : List Rule) (fp : String)
    (cfg : Option AuditConfig) :
    ∀ (ps : List ExtractedPrompt) (seen : List (String × String × Nat)),
      ∀ f ∈ (dispatchPrompts rules fp cfg ps seen).1,
        findingKey f ∉ seen ∧
          findingKey f ∈ (dispatchPrompts rules fp cfg ps seen).2 := by
  intro ps
  induction ps with
  | nil => intro seen f hf; simp [dispatchPrompts] at hf
  | cons p ps ih =>
    intro seen f hf
    unfold dispatchPrompts at hf ⊢
    rcases List.mem_append.mp hf with h1 | h2
    · rcases dispatchRules_out_keys p fp cfg _ rules seen f h1 with ⟨hnot, hin⟩
      exact ⟨hnot, dispatchPrompts_seen_mono rules fp cfg ps _ _ hin⟩
    · rcases ih _ f h2 with ⟨hnot, hin⟩
      refine ⟨fun hmem => hnot ?_, hin⟩
      exact dispatchRules_seen_mono p fp cfg _ rules seen _ hmem

theorem dispatchPrompts_pairwise (rules : List Rule) (fp : String)
    (cfg : Option AuditConfig) :
    ∀ (ps : List ExtractedPrompt) (seen : List (String × String × Nat)),
      (dispatchPrompts rules fp cfg ps seen).1.Pairwise
        (fun f g => findingKey f ≠ findingKey g) := by
  intro ps
  induction ps with
  | nil => intro seen; simp [dispatchPrompts]
  | cons p ps ih =>
    intro seen
    unfold dispatchPrompts
    refine List.pairwise_append.mpr
      ⟨dispatchRules_pairwise p fp cfg _ rules seen, ih _, ?_⟩
    intro f hf g hg
    rcases dispatchRules_out_keys p fp cfg _ rules seen f hf with ⟨_, hfin⟩
    rcases dispatchPrompts_out_keys rules fp cfg ps _ g hg with ⟨hgnot, _⟩
    exact fun hEq => hgnot (hEq ▸ hfin)

theorem dispatchPrompts_closure (rules : List Rule) (fp : String)
    (cfg : Option AuditConfig) :
    ∀ (ps : List ExtractedPrompt) (seen : List (String × String × Nat)) (k),
      k ∈ (dispatchPrompts rules fp cfg ps seen).2 →
      k ∈ seen ∨ ∃ f ∈ (dispatchPrompts rules fp cfg ps seen).1, findingKey f = k := by
  intro ps
  induction ps with
  | nil => intro seen k hk; left; simpa [dispatchPrompts] using hk
  | cons p ps ih =>
    intro seen k hk
    unfold dispatchPrompts at hk ⊢
    rcases ih _ k hk with hk' | ⟨f, hf, hkey⟩
    · rcases dispatchRules_closure p fp cfg _ rules seen k hk' with hk'' | ⟨f, hf, hkey⟩
      · left; exact hk''
      · right; exact ⟨f, List.mem_append.mpr (Or.inl hf), hkey⟩
    · right; exact ⟨f, List.mem_append.mpr (Or.inr hf), hkey⟩

theorem dispatchPrompts_complete (rules : List Rule) (fp : String)
    (cfg : Option AuditConfig) :
    ∀ (ps : List ExtractedPrompt) (seen : List (String × String × Nat)),
      ∀ p ∈ ps, ∀ r ∈ rules, ruleSkipped cfg r = false →
      ∀ m ∈ r.check p fp,
        dedupKey r.id fp m.lineStart ∈ (dispatchPrompts rules fp cfg ps seen).2 := by
  intro ps
  induction ps with
  | nil => intro seen p hp; simp at hp
  | cons p0 ps ih =>
    intro seen p hp r hr hsk m hm
    unfold dispatchPrompts
    rcases List.mem_cons.mp hp with rfl | hp'
    · exact dispatchPrompts_seen_mono rules fp cfg ps _ _
        (dispatchRules_complete p fp cfg _ rules seen r hr hsk m hm)
    · exact ih _ p hp' r hr hsk m hm

theorem analyzePrompt_mem (rules : List Rule) (prompts : List ExtractedPrompt)
    (fp : String) (cfg : Option AuditConfig) :
    ∀ f ∈ analyzePrompt rules prompts fp cfg,
      ∃ p ∈ prompts, ∃ r ∈ rules, ruleSkipped cfg r = false ∧
        ∃ m ∈ r.check p fp,
          f = materializeFinding r m fp (scoreMitigations p).total :=
  dispatchPrompts_mem rules fp cfg prompts []

theorem countP_key_eq_one (k : String × String × Nat) :
    ∀ (l : List Finding),
      l.Pairwise (fun f g => findingKey f ≠ findingKey g) →
      (∃ f ∈ l, findingKey f = k) →
      l.countP (fun f => findingKey f = k) = 1 := by
  intro l
  induction l with
  | nil => intro _ h; simp at h
  | cons a l ih =>
    intro hpw hex
    rcases List.pairwise_cons.mp hpw with ⟨ha, hl⟩
    by_cases hk : findingKey a = k
    · have hzero : l.countP (fun f => findingKey f = k) = 0 := by
        refine List.countP_eq_zero.mpr ?_
        intro f hf
        simp only [decide_eq_true_eq]
        intro hfk
        exact ha f hf (hk.trans hfk.symm)
      rw [List.countP_cons, hzero]
      simp [hk]
    · rw [List.countP_cons]
      have : l.countP (fun f => findingKey f = k) = 1 := by
        refine ih hl ?_
        rcases hex with ⟨f, hf, hfk⟩
        rcases List.mem_cons.mp hf with rfl | hf'
        · exact absurd hfk hk
        · exact ⟨f, hf', hfk⟩
      rw [this]
      simp [hk]

/-- C4: every Finding that survives the filters and deduplication is the
materialization of some active rule's match on some unit, with
`riskPoints = max(1, round(baseRiskPoints(severity, confidence) ×
(1 − mitigation.total/100)))`, hence riskPoints ≥ 1 always; in the fixed
tables a high-severity, medium-confidence match has base 23, and under a
mitigation total of 70 it rounds to 7. -/
theorem riskPoints_formula (rules : List Rule) (prompts : List ExtractedPrompt)
    (fp : String) (cfg : Option AuditConfig) :
    (∀ f ∈ analyzePrompt rules prompts fp cfg,
       (∃ p ∈ prompts, ∃ r ∈ rules, ∃ m ∈ r.check p fp,
          f = materializeFinding r m fp (scoreMitigations p).total ∧
          f.riskPoints = max 1 (jsRound
            ((calcRiskPoints r.severity r.confidence : ℚ) *
              (1 - ((scoreMitigations p).total : ℚ) / 100)))) ∧
       1 ≤ f.riskPoints) ∧
    (∀ s c, calcRiskPoints s c =
      jsRound (severityWeight s * confidenceMultiplier c)) ∧
    calcRiskPoints Severity.high Confidence.medium = 23 ∧
    max 1 (jsRound ((23 : ℚ) * (1 - (70 : ℚ) / 100))) = 7 := by
  refine ⟨?_, calcRiskPoints_eq, by decide, ?_⟩
  · intro f hf
    rcases analyzePrompt_mem rules prompts fp cfg f hf with
      ⟨p, hp, r, hr, _, m, hm, rfl⟩
    constructor
    · refine ⟨p, hp, r, hr, m, hm, rfl, ?_⟩
      show max 1 (jsRoundFrac
          (calcRiskPoints r.severity r.confidence * (100 - (scoreMitigations p).total))
          100) = _
      exact materialize_riskPoints_eq _ _
    · exact le_max_left 1 _
  · have h1 : ((23 : ℚ) * (1 - (70 : ℚ) / 100)) = 69 / 10 := by norm_num
    rw [h1]
    rw [show jsRound (69 / 10 : ℚ) = 7 by rw [jsRound]; norm_num]
    norm_num

/-- C7: within one dispatch no two Findings share the (ruleId, file,
lineStart) key, and a match of an active rule at a line of some unit yields
exactly one Finding with that key. -/
theorem dedup_exactly_one (rules : List Rule) (prompts : List ExtractedPrompt)
    (fp : String) (cfg : Option AuditConfig) :
    ((analyzePrompt rules prompts fp cfg).Pairwise
       (fun f g => ¬(f.id = g.id ∧ f.file = g.file ∧ f.lineStart = g.lineStart))) ∧
    (∀ r ∈ rules, ruleSkipped cfg r = false →
     ∀ p ∈ prompts, ∀ m ∈ r.check p fp,
       (analyzePrompt rules prompts fp cfg).countP
         (fun f => f.id = r.id ∧ f.file = fp ∧ f.lineStart = m.lineStart) = 1) := by
  constructor
  · refine (dispatchPrompts_pairwise rules fp cfg prompts []).imp ?_
    intro f g hne ⟨h1, h2, h3⟩
    exact hne (by simp [findingKey, h1, h2, h3])
  · intro r hr hsk p hp m hm
    have hkey : dedupKey r.id fp m.lineStart ∈
        (dispatchPrompts rules fp cfg prompts []).2 :=
      dispatchPrompts_complete rules fp cfg prompts [] p hp r hr hsk m hm
    have hex : ∃ f ∈ analyzePrompt rules prompts fp cfg,
        findingKey f = dedupKey r.id fp m.lineStart := by
      rcases dispatchPrompts_closure rules fp cfg prompts []
          (dedupKey r.id fp m.lineStart) hkey with h | h
      · simp at h
      · exact h
    have hcount := countP_key_eq_one (dedupKey r.id fp m.lineStart)
      (analyzePrompt rules prompts fp cfg)
      (dispatchPrompts_pairwise rules fp cfg prompts []) hex
    rw [← hcount]
    refine List.countP_congr ?_
    intro f _
    simp only [findingKey, dedupKey, decide_eq_decide, Prod.mk.injEq]

theorem lookup_mem :
    ∀ (l : List (String × CacheEntry)) (k : String) (v : CacheEntry),
      l.lookup k = some v → (k, v) ∈ l := by
  intro l
  induction l with
  | nil => intro k v h; simp [List.lookup] at h
  | cons kv l ih =>
    intro k v h
    rcases kv with ⟨k', v'⟩
    rw [List.lookup] at h
    cases hbeq : k == k' with
    | true =>
      rw [hbeq] at h
      simp only [Option.some.injEq] at h
      subst h
      have : k = k' := eq_of_beq hbeq
      subst this
      exact List.mem_cons_self _ _
    | false =>
      rw [hbeq] at h
      exact List.mem_cons_of_mem _ (ih k v h)

theorem upsertEntry_mem :
    ∀ (l : List (String × CacheEntry)) (k : String) (v : CacheEntry) (kv),
      kv ∈ upsertEntry l k v → kv = (k, v) ∨ kv ∈ l := by
  intro l
  induction l with
  | nil =>
    intro k v kv h
    simp [upsertEntry] at h
    left; exact h
  | cons kv' l ih =>
    intro k v kv h
    rcases kv' with ⟨k', v'⟩
    unfold upsertEntry at h
    by_cases hk : k' = k
    · rw [if_pos hk] at h
      rcases List.mem_cons.mp h with rfl | h'
      · left; rfl
      · right; exact List.mem_cons_of_mem _ h'
    · rw [if_neg hk] at h
      rcases List.mem_cons.mp h with rfl | h'
      · right; exact List.mem_cons_self _ _
      · rcases ih k v kv h' with h'' | h''
        · left; exact h''
        · right; exact List.mem_cons_of_mem _ h''

theorem getCachedFindings_eq_some (stat : String → Option Int)
    (cache : HoundCache) (fp : String) (l : List Finding) :
    getCachedFindings stat cache fp = some l →
    ∃ e, cache.entries.lookup fp = some e ∧ stat fp = some e.mtime ∧
      l = e.findings := by
  unfold getCachedFindings
  cases hlk : cache.entries.lookup fp with
  | none => simp
  | some e =>
    cases hst : stat fp with
    | none => simp
    | some m =>
      dsimp only
      by_cases hm : m = e.mtime
      · rw [if_pos hm]
        rintro h
        rcases Option.some.inj h with rfl
        exact ⟨e, rfl, by rw [hm], rfl⟩
      · rw [if_neg hm]
        rintro h
        cases h

theorem setCacheEntry_entries_mem (stat : String → Option Int)
    (cache : HoundCache) (fp : String) (fs : List Finding) (kv) :
    kv ∈ (setCacheEntry stat cache fp fs).entries →
    kv ∈ cache.entries ∨ kv.2.findings = fs := by
  unfold setCacheEntry
  cases hst : stat fp with
  | none => intro h; left; exact h
  | some m =>
    intro h
    rcases upsertEntry_mem cache.entries fp { mtime := m, findings := fs } kv h with
      rfl | h'
    · right; rfl
    · left; exact h'

theorem foldl_processFile_inv (P : ScanState → Prop) (env : ScanEnv)
    (cfg : AuditConfig) (builtins pr : List Rule) (useCache : Bool)
    (hstep : ∀ st file, P st →
      P (processFile env cfg builtins pr useCache st file)) :
    ∀ (files : List String) (st : ScanState), P st →
      P (files.foldl
        (fun st file => processFile env cfg builtins pr useCache st file) st) := by
  intro files
  induction files with
  | nil => intro st h; exact h
  | cons f fs ih => intro st h; exact ih _ (hstep st f h)

theorem analyzePrompt_id_mem (rules : List Rule) (prompts : List ExtractedPrompt)
    (fp : String) (cfg : Option AuditConfig) :
    ∀ f ∈ analyzePrompt rules prompts fp cfg,
      f.id ∈ rules.map (fun r => r.id) := by
  intro f hf
  rcases analyzePrompt_mem rules prompts fp cfg f hf with
    ⟨p, _, r, hr, _, m, _, rfl⟩
  exact List.mem_map.mpr ⟨r, hr, rfl⟩

theorem processFile_shape (env : ScanEnv) (cfg : AuditConfig)
    (builtins pr : List Rule) (useCache : Bool) (st : ScanState)
    (file : String) :
    ((processFile env cfg builtins pr useCache st file).fileResults =
        st.fileResults ∨
     ∃ fs score, fs ≠ [] ∧
       (fs = analyzePrompt builtins (extractPrompts file (env.content file))
          file (some cfg) ∨
        ∃ e, st.cache.entries.lookup file = some e ∧ fs = e.findings) ∧
       (processFile env cfg builtins pr useCache st file).fileResults =
         st.fileResults ++ [⟨file, fs, score⟩]) ∧
    (∀ kv ∈ (processFile env cfg builtins pr useCache st file).cache.entries,
       kv ∈ st.cache.entries ∨ kv.2.findings = [] ∨
       kv.2.findings = analyzePrompt builtins
         (extractPrompts file (env.content file)) file (some cfg)) := by
  unfold processFile
  split
  · exact ⟨Or.inl rfl, fun kv hkv => Or.inl hkv⟩
  · split
    · next cached hcache =>
      have hget : getCachedFindings env.stat st.cache file = some cached := by
        by_cases hu : useCache = true
        · rwa [if_pos hu] at hcache
        · rw [if_neg hu] at hcache; cases hcache
      rcases getCachedFindings_eq_some _ _ _ _ hget with ⟨e, hlk, _, rfl⟩
      split
      · next hlen =>
        refine ⟨Or.inr ⟨e.findings, scoreFile e.findings, ?_, Or.inr ⟨e, hlk, rfl⟩, rfl⟩,
          fun kv hkv => Or.inl hkv⟩
        exact List.length_pos.mp hlen
      · exact ⟨Or.inl rfl, fun kv hkv => Or.inl hkv⟩
    · next hcache =>
      dsimp only
      by_cases hu : useCache = true
      · rw [if_pos hu, if_pos hu]
        by_cases hp : (extractPrompts file (env.content file)).isEmpty = true
        · rw [if_pos hp]
          refine ⟨Or.inl rfl, ?_⟩
          intro kv hkv
          rcases setCacheEntry_entries_mem env.stat st.cache file [] kv hkv with h | h
          · exact Or.inl h
          · exact Or.inr (Or.inl h)
        · rw [if_neg hp]
          have hcprov : ∀ kv ∈ (setCacheEntry env.stat st.cache file
              (analyzePrompt builtins (extractPrompts file (env.content file))
                file (some cfg))).entries,
              kv ∈ st.cache.entries ∨ kv.2.findings = [] ∨
              kv.2.findings = analyzePrompt builtins
                (extractPrompts file (env.content file)) file (some cfg) := by
            intro kv hkv
            rcases setCacheEntry_entries_mem env.stat st.cache file _ kv hkv with h | h
            · exact Or.inl h
            · exact Or.inr (Or.inr h)
          by_cases hemp : (analyzePrompt builtins
              (extractPrompts file (env.content file)) file (some cfg)).isEmpty = true
          · rw [if_pos hemp]
            exact ⟨Or.inl rfl, hcprov⟩
          · rw [if_neg hemp]
            by_cases hab : st.aborted = true
            · rw [if_pos hab]
              exact ⟨Or.inl rfl, hcprov⟩
            · rw [if_neg hab]
              refine ⟨Or.inr ⟨_, _, ?_, Or.inl rfl, rfl⟩, hcprov⟩
              intro hnil
              rw [hnil] at hemp
              exact hemp rfl
      · rw [if_neg hu, if_neg hu]
        by_cases hp : (extractPrompts file (env.content file)).isEmpty = true
        · rw [if_pos hp]
          exact ⟨Or.inl rfl, fun kv hkv => Or.inl hkv⟩
        · rw [if_neg hp]
          by_cases hemp : (analyzePrompt builtins
              (extractPrompts file (env.content file)) file (some cfg)).isEmpty = true
          · rw [if_pos hemp]
            exact ⟨Or.inl rfl, fun kv hkv => Or.inl hkv⟩
          · rw [if_neg hemp]
            by_cases hab : st.aborted = true
            · rw [if_pos hab]
              exact ⟨Or.inl rfl, fun kv hkv => Or.inl hkv⟩
            · rw [if_neg hab]
              refine ⟨Or.inr ⟨_, _, ?_, Or.inl rfl, rfl⟩, fun kv hkv => Or.inl hkv⟩
              intro hnil
              rw [hnil] at hemp
              exact hemp rfl

/-- C10 (implicit): every FileResult in a ScanResult's `files[]` has a
non-empty findings array — a file whose processing yields zero findings
contributes no FileResult at all. -/
theorem files_have_findings (env : ScanEnv) (files : List String)
    (cfg : AuditConfig) (builtins pr : List Rule) (cache0 : HoundCache) :
    ∀ fr ∈ (runScan env files cfg builtins pr cache0).files,
      fr.findings ≠ [] := by
  intro fr hfr
  unfold runScan at hfr
  dsimp only at hfr
  rw [buildScanResult_files_eq] at hfr
  have hfr' := (List.perm_insertionSort _ _).subset hfr
  have hstep : ∀ (st : ScanState) (file' : String),
      (∀ fr' ∈ st.fileResults, fr'.findings ≠ []) →
      ∀ fr' ∈ (processFile env cfg builtins pr (!(cfg.cache = some false))
          st file').fileResults, fr'.findings ≠ [] := by
    intro st file' hst fr' hfr''
    rcases (processFile_shape env cfg builtins pr (!(cfg.cache = some false))
        st file').1 with heq | ⟨fs, score, hne, _, heq⟩
    · rw [heq] at hfr''
      exact hst fr' hfr''
    · rw [heq] at hfr''
      rcases List.mem_append.mp hfr'' with h | h
      · exact hst fr' h
      · rcases List.mem_singleton.mp h with rfl
        exact hne
  exact foldl_processFile_inv
    (fun st => ∀ fr' ∈ st.fileResults, fr'.findings ≠ [])
    env cfg builtins pr (!(cfg.cache = some false)) hstep files
    { cache := if (!(cfg.cache = some false)) = true then cache0
        else { version := "1", entries := [] },
      fileResults := [], totalFindings := 0, aborted := false }
    (fun fr' h => by cases h) fr hfr'

/-- C10 witness. -/
theorem files_have_findings_witness :
    ((runScan plgEnv ["a.txt"] cfg60 [] [] cacheOne).files.all
      (fun fr => !fr.findings.isEmpty)) = true := by
  rw [List.all_eq_true]
  intro fr hfr
  have h := files_have_findings plgEnv ["a.txt"] cfg60 [] [] cacheOne fr hfr
  simpa [List.isEmpty_iff] using h

/-- C1 (code bug): `runScan` loads plugin rules and hands them to
`analyzePrompt`, but `analyzePrompt` takes three parameters and iterates only
the built-in registry, so a loaded plugin rule whose check matches a prompt
unit of a scanned file still contributes no Finding: every Finding's id is a
built-in rule id. -/
theorem plugin_rules_never_dispatched (env : ScanEnv) (files : List String)
    (cfg : AuditConfig) (builtins pluginRules : List Rule) (plugin : Rule)
    (u : ExtractedPrompt) (file : String)
    (hplugin : plugin ∈ pluginRules)
    (hid : ∀ r ∈ builtins, r.id ≠ plugin.id)
    (hfile : file ∈ files)
    (hunit : u ∈ extractPrompts file (env.content file))
    (hmatch : plugin.check u file ≠ []) :
    ∀ f ∈ (runScan env files cfg builtins pluginRules
        { version := "1", entries := [] }).allFindings,
      f.id ≠ plugin.id := by
  intro f hf
  unfold runScan at hf
  dsimp only at hf
  rw [buildScanResult_allFindings_eq] at hf
  rcases List.mem_flatten.mp hf with ⟨fl, hfl, hffl⟩
  rcases List.mem_map.mp hfl with ⟨fr, hfr, rfl⟩
  have hfr' := (List.perm_insertionSort _ _).subset hfr
  have hstep : ∀ (st : ScanState) (file' : String),
      ((∀ fr ∈ st.fileResults, ∀ f ∈ fr.findings,
          f.id ∈ builtins.map (fun r => r.id)) ∧
        (∀ kv ∈ st.cache.entries, ∀ f ∈ kv.2.findings,
          f.id ∈ builtins.map (fun r => r.id))) →
      ((∀ fr ∈ (processFile env cfg builtins pluginRules
            (!(cfg.cache = some false)) st file').fileResults,
          ∀ f ∈ fr.findings, f.id ∈ builtins.map (fun r => r.id)) ∧
        (∀ kv ∈ (processFile env cfg builtins pluginRules
            (!(cfg.cache = some false)) st file').cache.entries,
          ∀ f ∈ kv.2.findings, f.id ∈ builtins.map (fun r => r.id))) := by
    rintro st file' ⟨hres, hcache⟩
    rcases processFile_shape env cfg builtins pluginRules
        (!(cfg.cache = some false)) st file' with ⟨hshape, hcshape⟩
    constructor
    · rcases hshape with heq | ⟨fs, score, _, hprov, heq⟩
      · rw [heq]
        exact hres
      · rw [heq]
        intro fr' hfr'' f' hf'
        rcases List.mem_append.mp hfr'' with h | h
        · exact hres fr' h f' hf'
        · rcases List.mem_singleton.mp h with rfl
          rcases hprov with rfl | ⟨e, hlk, rfl⟩
          · exact analyzePrompt_id_mem builtins _ file' (some cfg) f' hf'
          · exact hcache _ (lookup_mem _ _ _ hlk) f' hf'
    · intro kv hkv f' hf'
      rcases hcshape kv hkv with h | h | h
      · exact hcache kv h f' hf'
      · rw [h] at hf'; cases hf'
      · rw [h] at hf'
        exact analyzePrompt_id_mem builtins _ file' (some cfg) f' hf'
  have hinit : ((∀ fr ∈ ([] : List FileResult), ∀ f ∈ fr.findings,
        f.id ∈ builtins.map (fun r => r.id)) ∧
      (∀ kv ∈ (if (!(cfg.cache = some false)) = true
            then ({ version := "1", entries := [] } : HoundCache)
            else { version := "1", entries := [] }).entries,
        ∀ f ∈ kv.2.findings, f.id ∈ builtins.map (fun r => r.id))) := by
    constructor
    · intro fr' h
      cases h
    · intro kv hkv
      by_cases hu : (!(cfg.cache = some false)) = true <;>
        simp [hu] at hkv
  have hinv := foldl_processFile_inv
    (fun st => (∀ fr ∈ st.fileResults, ∀ f ∈ fr.findings,
        f.id ∈ builtins.map (fun r => r.id)) ∧
      (∀ kv ∈ st.cache.entries, ∀ f ∈ kv.2.findings,
        f.id ∈ builtins.map (fun r => r.id)))
    env cfg builtins pluginRules (!(cfg.cache = some false)) hstep files
    { cache := if (!(cfg.cache = some false)) = true
        then { version := "1", entries := [] }
        else { version := "1", entries := [] },
      fileResults := [], totalFindings := 0, aborted := false }
    hinit
  have hids := hinv.1 fr hfr' f hffl
  rcases List.mem_map.mp hids with ⟨r, hr, hrid⟩
  rw [← hrid]
  exact hid r hr

/-- C1 witness: the plugin-test scenario — plugin rule `PLG-001` matches the
extracted unit of the scanned file, yet no Finding carries its id. -/
theorem plugin_rules_never_dispatched_witness :
    ((runScan plgEnv ["target.txt"] cfg60 [builtinFixture] [plgRule]
        { version := "1", entries := [] }).allFindings.all
      (fun f => !(f.id = "PLG-001"))) = true := by
  rw [List.all_eq_true]
  intro f hf
  have h := plugin_rules_never_dispatched plgEnv ["target.txt"] cfg60
    [builtinFixture] [plgRule] plgRule plgUnit "target.txt"
    (List.mem_singleton.mpr rfl)
    (by intro r hr; rcases List.mem_singleton.mp hr with rfl; decide)
    (List.mem_singleton.mpr rfl)
    (by decide)
    (by decide)
    f hf
  simpa [plgRule] using h

/-- C8: a cache lookup hits iff the file's current mtime equals the stored
mtime, returning exactly the cached findings; on a hit the per-file task is
independent of file contents and of the rule registry (no extraction or
dispatch), and a changed mtime invalidates only that file's entry. -/
theorem cache_mtime_semantics (stat : String → Option Int)
    (cache : HoundCache) (file : String) (entry : CacheEntry)
    (hentry : cache.entries.lookup file = some entry) :
    (∀ l, getCachedFindings stat cache file = some l ↔
        (stat file = some entry.mtime ∧ l = entry.findings)) ∧
    (∀ (env₁ env₂ : ScanEnv) (cfg : AuditConfig)
        (rules₁ rules₂ pr₁ pr₂ : List Rule) (st : ScanState)
        (cached : List Finding),
        env₁.stat = stat → env₂.stat = stat → st.cache = cache →
        getCachedFindings stat cache file = some cached →
        (processFile env₁ cfg rules₁ pr₁ true st file =
          processFile env₂ cfg rules₂ pr₂ true st file) ∧
        (st.aborted = false → cached ≠ [] →
          (processFile env₁ cfg rules₁ pr₁ true st file).fileResults =
            st.fileResults ++ [⟨file, cached, scoreFile cached⟩])) ∧
    (∀ stat' : String → Option Int,
        (∀ g, g ≠ file → stat' g = stat g) →
        (stat' file ≠ some entry.mtime →
          getCachedFindings stat' cache file = none) ∧
        (∀ g, g ≠ file →
          getCachedFindings stat' cache g = getCachedFindings stat cache g)) := by
  refine ⟨?_, ?_, ?_⟩
  · intro l
    unfold getCachedFindings
    rw [hentry]
    dsimp only
    cases hst : stat file with
    | none =>
      dsimp only
      constructor
      · intro h; cases h
      · rintro ⟨h1, _⟩; cases h1
    | some m =>
      dsimp only
      by_cases hm : m = entry.mtime
      · subst hm
        rw [if_pos rfl]
        constructor
        · intro h
          exact ⟨rfl, (Option.some.inj h).symm⟩
        · rintro ⟨_, rfl⟩
          rfl
      · rw [if_neg hm]
        constructor
        · intro h; cases h
        · rintro ⟨h1, _⟩
          exact absurd (Option.some.inj h1) hm
  · intro env₁ env₂ cfg rules₁ rules₂ pr₁ pr₂ st cached h1 h2 hc hget
    have hget₁ : getCachedFindings env₁.stat st.cache file = some cached := by
      rw [h1, hc]; exact hget
    have hget₂ : getCachedFindings env₂.stat st.cache file = some cached := by
      rw [h2, hc]; exact hget
    constructor
    · unfold processFile
      by_cases hab : st.aborted = true
      · rw [if_pos hab, if_pos hab]
      · rw [if_neg hab, if_neg hab]
        simp only [if_true]
        rw [hget₁, hget₂]
    · intro habf hne
      unfold processFile
      rw [if_neg (by rw [habf]; exact Bool.false_ne_true)]
      simp only [if_true]
      rw [hget₁]
      dsimp only
      rw [if_pos (by simpa [List.length_pos] using hne)]
  · intro stat' hoff
    constructor
    · intro hne
      unfold getCachedFindings
      rw [hentry]
      dsimp only
      cases hst : stat' file with
      | none => rfl
      | some m =>
        dsimp only
        rw [if_neg (fun hm => hne (by rw [hst, hm]))]
    · intro g hg
      unfold getCachedFindings
      rw [hoff g hg]

/-- C8 witness: on the concrete cache, equal mtime hits and returns the
cached findings; bumping only this file's mtime misses it while lookups for
another path are unchanged. -/
theorem cache_mtime_semantics_witness :
    (getCachedFindings (fun _ => some 5) cacheOne "a.txt" =
      some [cachedFinding]) ∧
    (getCachedFindings (fun s => if s = "a.txt" then some 6 else some 5)
      cacheOne "a.txt" = none) ∧
    (getCachedFindings (fun s => if s = "a.txt" then some 6 else some 5)
        cacheOne "b.txt" =
      getCachedFindings (fun _ => some 5) cacheOne "b.txt") := by
  have h := cache_mtime_semantics (fun _ => some 5) cacheOne "a.txt"
    { mtime := 5, findings := [cachedFinding] } (by decide)
  refine ⟨(h.1 [cachedFinding]).mpr ⟨rfl, rfl⟩, ?_, ?_⟩
  · exact (h.2.2 (fun s => if s = "a.txt" then some 6 else some 5)
      (fun g hg => by simp [hg])).1 (by decide)
  · exact (h.2.2 (fun s => if s = "a.txt" then some 6 else some 5)
      (fun g hg => by simp [hg])).2 "b.txt" (by decide)

end ContextGuard
